import Mathlib

/-!
Verification development for the emailbot auto-reply pipeline.

This file gives a shallow embedding, in Lean, of the core code paths of the
repository:

* `reciprocal_rank_fusion` from `app/services/hybrid_search_service.py`
* `GmailRateLimit.get_active_limit` / `GmailRateLimit.add_limit` from
  `app/models/gmail_rate_limit.py`
* `VectorDBService.upsert_thread` from `app/services/vector_db_service.py`
* `send_email` (its error handling) from `app/services/email_service.py`
* `AutoReplyManager.generate_and_send_reply` and
  `AutoReplyManager.process_single_email` from
  `app/services/auto_reply_service.py`
* `check_emails_for_user` from `app/services/background_tasks.py`

Modelling conventions:

* Python floats used in the RRF scores are modelled as exact rationals (`ℚ`);
  the scores involved are sums of reciprocals `1/(k+rank+1)`.
* Python datetimes are modelled as integers (`ℤ`), with `a > b` modelling a
  later instant; string parsing of dates (`dateutil.parser.parse`) is an
  environment oracle `String → Option ℤ`.
* Python dict results are modelled as inductive types whose constructors are
  in one-to-one correspondence with the distinct dict shapes the code builds.
* I/O calls (Gmail API, OpenAI, Pinecone) are modelled as oracle fields of an
  environment record; their outcomes are adversarial inputs.
* Mutations (`db.commit`, the module-level `processed_message_ids` set, the
  Pinecone index) are modelled by explicit state passing.
-/

namespace EmailBot

/-! ## Items and reciprocal rank fusion
Source: `app/services/hybrid_search_service.py`, `reciprocal_rank_fusion`. -/

/-! ### Lemmas about the score dict -/

/-! ### Lemmas about the accumulation loop -/

/-! ### Lemmas about the stable descending sort -/

/-! ### Lemmas about the kept items -/

/-! ### Fusing a list with itself -/

/-! ## Gmail rate limits
Source: `app/models/gmail_rate_limit.py`, class `GmailRateLimit`.
The `gmail_rate_limits` table is a list of rows in insertion order;
datetimes are integers and `datetime.now(timezone.utc)` is the `now`
parameter. -/

/-! ## Substring and regex scanning
The error handlers test Python substring membership and run `re.search` with
two fixed patterns.  We implement those two patterns directly; `re.search`
returns the match at the leftmost possible start position. -/

/-! ## Thread data and the vector index
Sources: `app/services/vector_db_service.py` (`upsert_thread`) and the thread
dicts produced by `get_thread`. -/

/-! ## The auto-reply pipeline
Sources: `app/services/auto_reply_service.py` (`generate_and_send_reply`,
`process_single_email`) and `app/services/email_service.py` (`send_email`,
error-handling tail). -/

/-! ## The polling cycle
Source: `app/services/background_tasks.py`, `check_emails_for_user`. -/

/-! ## Shared concrete fixtures for witnesses and counterexamples -/

/-! ### Per-call facts about the pipeline -/

/-! ### Dedup across a sequence of per-message calls -/

/-! ### Rate-limit errors without an extractable timestamp -/

/-! ### The irrelevant category -/

/-! ### Classification failure -/

/-! ### Which skipped messages feed the thread monitor -/

/-- A search-result item, as a dict with the keys `reciprocal_rank_fusion`
inspects.  `thread_id`/`id` are `none` when the key is absent; `payload`
stands for the rest of the dict so distinct items stay distinguishable. -/
structure Item where
  thread_id : Option String
  id : Option String
  payload : ℕ
deriving DecidableEq

/-- Python truthiness of `d.get(k)` for a string value: `None` and the empty
string are falsy. -/
def truthyStr : Option String → Option String
  | none => none
  | some s => if s = "" then none else some s

/-- The key `item.get("thread_id") or item.get("id")`, with the subsequent
`if not thread_id: continue` guard: `none` means the item is skipped. -/
def itemKey (it : Item) : Option String :=
  match truthyStr it.thread_id with
  | some s => some s
  | none => truthyStr it.id

/-- Association-list lookup (insertion-ordered Python dict). -/
def alookup {α : Type} (key : String) : List (String × α) → Option α
  | [] => none
  | p :: rest => if p.1 = key then some p.2 else alookup key rest

/-- `scores.setdefault(tid, 0); scores[tid] += v` on an insertion-ordered
dict: update in place if present, else append. -/
def updateScore (key : String) (v : ℚ) : List (String × ℚ) → List (String × ℚ)
  | [] => [(key, v)]
  | p :: rest => if p.1 = key then (p.1, p.2 + v) :: rest else p :: updateScore key v rest

/-- `if thread_id not in id_to_item: id_to_item[thread_id] = item`. -/
def insertItem (key : String) (it : Item) (m : List (String × Item)) : List (String × Item) :=
  match alookup key m with
  | some _ => m
  | none => m ++ [(key, it)]

/-- The `scores` and `id_to_item` dicts built by `reciprocal_rank_fusion`. -/
structure RRFState where
  scores : List (String × ℚ)
  idToItem : List (String × Item)
deriving DecidableEq

/-- One iteration of the inner `for rank, item in enumerate(result_list)` loop. -/
def processItem (k : ℕ) (st : RRFState) (rank : ℕ) (it : Item) : RRFState :=
  match itemKey it with
  | none => st
  | some key =>
      { scores := updateScore key (1 / ((k : ℚ) + rank + 1)) st.scores
        idToItem := insertItem key it st.idToItem }

/-- The inner loop from a given starting rank. -/
def processFrom (k : ℕ) (st : RRFState) (rank : ℕ) : List Item → RRFState
  | [] => st
  | it :: rest => processFrom k (processItem k st rank it) (rank + 1) rest

/-- `for rank, item in enumerate(result_list)`. -/
def processList (k : ℕ) (st : RRFState) (l : List Item) : RRFState :=
  processFrom k st 0 l

/-- All lists folded into the accumulator state. -/
def rrfState (k : ℕ) (result_lists : List (List Item)) : RRFState :=
  result_lists.foldl (processList k) ⟨[], []⟩

/-- Insert into a list sorted by descending score; the new element goes in
front of equal scores, which is what a stable sort does to an element that
precedes them in the input. -/
def insertDesc (p : String × ℚ) : List (String × ℚ) → List (String × ℚ)
  | [] => [p]
  | q :: rest => if q.2 ≤ p.2 then p :: q :: rest else q :: insertDesc p rest

/-- Stable descending sort by score, modelling
`sorted(scores.items(), key=lambda x: x[1], reverse=True)` (Python's sort is
stable, and the stable descending permutation is unique). -/
def sortDesc : List (String × ℚ) → List (String × ℚ)
  | [] => []
  | p :: rest => insertDesc p (sortDesc rest)

/-- `reciprocal_rank_fusion(result_lists, k)`: fold all lists into the score
and item dicts, sort by descending RRF score, return the kept items. -/
def reciprocal_rank_fusion (result_lists : List (List Item)) (k : ℕ) : List Item :=
  let st := rrfState k result_lists
  (sortDesc st.scores).filterMap (fun p => alookup p.1 st.idToItem)

/-- The keys contributed by a list, in order (items without a key skipped). -/
def keysOf (l : List Item) : List String := l.filterMap itemKey

/-- Total contribution of a list to a key's score, counting from `rank`. -/
def contribFrom (k : ℕ) (rank : ℕ) (key : String) : List Item → ℚ
  | [] => 0
  | it :: rest =>
      (if itemKey it = some key then 1 / ((k : ℚ) + rank + 1) else 0) +
        contribFrom k (rank + 1) key rest

/-- Rank (0-based) of the first item carrying `key`, offset by `r`. -/
def rankFrom (r : ℕ) (key : String) : List Item → Option ℕ
  | [] => none
  | it :: rest => if itemKey it = some key then some r else rankFrom (r + 1) key rest

/-- The spec-side contribution of one ranked list: `1/(k + rank + 1)` at the
key's rank if the key appears, else `0`. -/
def rrfContrib (k : ℕ) (l : List Item) (key : String) : ℚ :=
  match rankFrom 0 key l with
  | some r => 1 / ((k : ℚ) + r + 1)
  | none => 0

/-- First-seen insertion order of keys: fold keys left to right, appending
each key not seen before. -/
def seenFold (ks : List String) (new : List String) : List String :=
  new.foldl (fun acc key => if key ∈ acc then acc else acc ++ [key]) ks

/-- Score of a key in a score dict, `0` when absent. -/
def scoreD (key : String) (s : List (String × ℚ)) : ℚ := (alookup key s).getD 0

/-- First item of a list carrying a given key. -/
def firstWith (key : String) (l : List Item) : Option Item :=
  l.find? (fun it => decide (itemKey it = some key))

/-- First item carrying a key across two lists, first list first. -/
def firstWith2 (key : String) (l1 l2 : List Item) : Option Item :=
  match firstWith key l1 with
  | some it => some it
  | none => firstWith key l2

/-- A row of the `gmail_rate_limits` table. -/
structure LimitRecord where
  user_id : ℕ
  limit_type : String
  retry_after : ℤ
  is_active : Bool
deriving DecidableEq

/-- Row filter of `get_active_limit`: user, type, active, and
`retry_after > datetime.now(timezone.utc)`. -/
def limitMatches (user_id : ℕ) (limit_type : String) (now : ℤ) (r : LimitRecord) : Bool :=
  r.user_id == user_id && r.limit_type == limit_type && r.is_active && now < r.retry_after

/-- `GmailRateLimit.get_active_limit`: first row matching the filter. -/
def get_active_limit (db : List LimitRecord) (now : ℤ) (user_id : ℕ)
    (limit_type : String) : Option LimitRecord :=
  db.find? (limitMatches user_id limit_type now)

/-- `GmailRateLimit.add_limit`: deactivate all active rows for the
(user, type) pair, then append a fresh active row. -/
def add_limit (db : List LimitRecord) (user_id : ℕ) (retry_after : ℤ)
    (limit_type : String) : List LimitRecord :=
  (db.map (fun r =>
    if r.user_id == user_id && r.limit_type == limit_type && r.is_active then
      { r with is_active := false }
    else r)) ++ [⟨user_id, limit_type, retry_after, true⟩]

/-- Number of active rows for a (user, type) pair. -/
def activeCount (db : List LimitRecord) (user_id : ℕ) (limit_type : String) : ℕ :=
  (db.filter (fun r => r.user_id == user_id && r.limit_type == limit_type && r.is_active)).length

/-- A sequence of `add_limit` calls applied to an initially empty table. -/
def applyLimits (ops : List (ℕ × ℤ × String)) : List LimitRecord :=
  ops.foldl (fun db op => add_limit db op.1 op.2.1 op.2.2) []

/-- `needle in haystack` on char lists. -/
def findSub (n : List Char) : List Char → Bool
  | [] => n.isPrefixOf []
  | c :: rest => n.isPrefixOf (c :: rest) || findSub n rest

/-- Python `str.lower()` for the ASCII strings the code compares. -/
def charLower (c : Char) : Char :=
  if 65 ≤ c.toNat ∧ c.toNat ≤ 90 then Char.ofNat (c.toNat + 32) else c

def strLower (s : String) : String := String.mk (s.data.map charLower)

/-- Python `needle in haystack` for strings. -/
def containsSubstr (needle haystack : String) : Bool := findSub needle.data haystack.data

/-- Match exactly `n` digits (regex `\d{n}`), returning them and the rest. -/
def matchDigits : ℕ → List Char → Option (List Char × List Char)
  | 0, l => some ([], l)
  | _ + 1, [] => none
  | n + 1, c :: rest =>
      if c.isDigit then (matchDigits n rest).map (fun p => (c :: p.1, p.2)) else none

/-- Match one literal character. -/
def matchChar (ch : Char) : List Char → Option (List Char × List Char)
  | [] => none
  | x :: rest => if x = ch then some ([x], rest) else none

/-- Sequencing of matchers, concatenating what they consume. -/
def mseq (m1 m2 : List Char → Option (List Char × List Char)) (l : List Char) :
    Option (List Char × List Char) :=
  match m1 l with
  | none => none
  | some (a, rest) =>
      match m2 rest with
      | none => none
      | some (b, rest2) => some (a ++ b, rest2)

/-- Greedy `\d+`; since it is followed by a non-digit literal (`Z`) the greedy
match needs no backtracking. -/
def matchDigitsPlus (l : List Char) : Option (List Char × List Char) :=
  let ds := l.takeWhile Char.isDigit
  if ds.isEmpty then none else some (ds, l.drop ds.length)

/-- The group `\d{4}-\d{2}-\d{2}T\d{2}:\d{2}:\d{2}\.\d+Z` from `send_email`'s
rate-limit pattern. -/
def isoTimestamp : List Char → Option (List Char × List Char) :=
  mseq (matchDigits 4) (mseq (matchChar '-') (mseq (matchDigits 2) (mseq (matchChar '-')
    (mseq (matchDigits 2) (mseq (matchChar 'T') (mseq (matchDigits 2) (mseq (matchChar ':')
    (mseq (matchDigits 2) (mseq (matchChar ':') (mseq (matchDigits 2) (mseq (matchChar '.')
    (mseq matchDigitsPlus (matchChar 'Z')))))))))))))

/-- Attempt `until (\d{4}-\d{2}-\d{2}T\d{2}:\d{2}:\d{2}\.\d+Z)` at this exact
position; yields group 1. -/
def matchUntilAt (l : List Char) : Option String :=
  if "until ".data.isPrefixOf l then (isoTimestamp (l.drop 6)).map (fun p => String.mk p.1)
  else none

/-- Left-to-right scan of start positions, as `re.search` does. -/
def searchChars (f : List Char → Option String) : List Char → Option String
  | [] => f []
  | c :: rest =>
      match f (c :: rest) with
      | some s => some s
      | none => searchChars f rest

/-- `re.search(r"until (\d{4}-\d{2}-\d{2}T\d{2}:\d{2}:\d{2}\.\d+Z)", s)`,
group 1 (from `send_email`). -/
def searchUntil (s : String) : Option String := searchChars matchUntilAt s.data

/-- The character class `[0-9\-T:\.Z]`. -/
def retryClassChar (c : Char) : Bool :=
  c.isDigit || c = '-' || c = 'T' || c = ':' || c = '.' || c = 'Z'

/-- Attempt `Retry after ([0-9\-T:\.Z]+)` at this exact position. -/
def matchRetryAt (l : List Char) : Option String :=
  if "Retry after ".data.isPrefixOf l then
    let run := (l.drop 12).takeWhile retryClassChar
    if run.isEmpty then none else some (String.mk run)
  else none

/-- `re.search(r"Retry after ([0-9\-T:\.Z]+)", s)`, group 1 (from
`generate_and_send_reply`). -/
def searchRetryAfter (s : String) : Option String := searchChars matchRetryAt s.data

/-- `str(HTTPException(status_code, detail))` = `"{code}: {detail}"`. -/
def httpExcStr (code : ℕ) (detail : String) : String := toString code ++ ": " ++ detail

/-- A message dict within a thread, restricted to the fields the embedded
paths read.  `date` is the instant `parser.parse(message["date"])` yields. -/
structure Msg where
  sender : String
  recipients : List String
  date : ℤ
  snippet : String
  body : Option String
deriving DecidableEq

/-- A thread dict as produced by `get_thread`.  `text_content = none` models
a missing or empty (falsy) `"text_content"` entry; `category`/`embedding`
are set by the pipeline before the upsert. -/
structure ThreadData where
  thread_id : String
  subject : String
  messages : List Msg
  participants : List String
  message_count : ℕ
  last_updated : String
  text_content : Option String
  category : Option String
  embedding : Option ℕ
deriving DecidableEq

/-- The metadata map `upsert_thread` writes next to the vector. -/
structure VectorMeta where
  user_id : ℕ
  thread_id : String
  subject : String
  participants : List String
  message_count : ℕ
  last_updated : String
  full_content : String
  text_preview : String
  category : String
deriving DecidableEq

/-- Pinecone upsert semantics for a single id: replace or append. -/
def storeUpsert (store : List (String × VectorMeta)) (key : String) (v : VectorMeta) :
    List (String × VectorMeta) :=
  match alookup key store with
  | some _ => store.map (fun p => if p.1 = key then (key, v) else p)
  | none => store ++ [(key, v)]

/-- `VectorDBService.upsert_thread`: skip (successfully) when the category is
the "irrelevant" sentinel; fail (False) when the embedding is missing or the
metadata build raises (missing `text_content`); otherwise upsert under
`user_{user_id}_{thread_id}`. -/
def upsert_thread (store : List (String × VectorMeta)) (user_id : ℕ) (td : ThreadData) :
    Bool × List (String × VectorMeta) :=
  if strLower (td.category.getD "") = "irrelevant" then (true, store)
  else
    match td.embedding with
    | none => (false, store)
    | some _ =>
        match td.text_content with
        | none => (false, store)
        | some tc =>
            let vector_id := "user_" ++ toString user_id ++ "_" ++ td.thread_id
            (true, storeUpsert store vector_id
              ⟨user_id, td.thread_id, td.subject, td.participants, td.message_count,
               td.last_updated, tc, tc.take 1000, td.category.getD ""⟩)

/-- Mutable state shared by pipeline invocations: the rate-limit table, the
process-wide `processed_message_ids` set (insertion-ordered), the vector
index, and the `monitored_threads` set. -/
structure PipelineState where
  limits : List LimitRecord
  processed : List String
  store : List (String × VectorMeta)
  monitored : List String
deriving DecidableEq

/-- Calls made during one pipeline invocation: classification
(`classify_email`), composition (`_generate_reply_with_gpt`), provider sends
(the Gmail `messages().send` call inside `send_email`), vector upserts
(`vector_db.upsert_thread`), and thread-monitoring checks
(`ThreadMonitoringService.process_gmail_push_notification`). -/
structure Trace where
  classifyCalls : ℕ
  composeCalls : ℕ
  gmailSendCalls : ℕ
  upsertCalls : ℕ
  monitorChecks : ℕ
deriving DecidableEq

def trace0 : Trace := ⟨0, 0, 0, 0, 0⟩

/-- Oracles for one pipeline invocation: clock, user, and the outcomes of the
external calls.  `classify` is the value of the classifier result's
`"classification"` key (`none` when the classifier failed and the key is
absent).  `monitorStore`/`monitorMonitored` are the state updates a
thread-monitoring check applies (it only touches the index and the monitored
set). -/
structure Env where
  now : ℤ
  userId : ℕ
  userEmail : String
  getMessage : Except String (Option String)
  getThread : Except String ThreadData
  classify : Option String
  embedVal : ℕ
  replyContent : Option String
  gmailSend : Except String (String × String)
  parseDate : String → Option ℤ
  monitorStore : List (String × VectorMeta) → List (String × VectorMeta)
  monitorMonitored : List String → List String

/-- The `retry_after` field of a rate-limited response dict. -/
inductive RetryAfterField
  | iso (t : ℤ)
  | raw (s : String)
  | unknownDate
deriving DecidableEq

/-- The optional response dict `generate_and_send_reply` returns as its
second component. -/
inductive GenResp
  | noResp
  | sendOk (message_id : String) (thread_id : String)
  | rateLimited (retry_after : RetryAfterField)
  | skippedIrrelevant
deriving DecidableEq

/-- `send_email`'s send call and exception handler: on a provider error whose
text contains "rate limit exceeded", search `until <iso-timestamp>`; on a hit
parse it, record the limit, and raise a 429 `HTTPException`; otherwise raise
a 500 `HTTPException` (no limit is recorded). -/
def send_email (env : Env) (db : List LimitRecord) :
    Except String (String × String) × List LimitRecord :=
  match env.gmailSend with
  | .ok ids => (.ok ids, db)
  | .error e =>
      if containsSubstr "rate limit exceeded" (strLower e) then
        match searchUntil e with
        | some ts =>
            match env.parseDate ts with
            | some t =>
                (.error (httpExcStr 429 ("Gmail API rate limit exceeded. Retry after " ++ ts)),
                 add_limit db env.userId t "send_email")
            | none => (.error ("ParserError: " ++ ts), db)
        | none => (.error (httpExcStr 500 ("Failed to send email: " ++ e)), db)
      else (.error (httpExcStr 500 ("Failed to send email: " ++ e)), db)

/-- `ThreadMonitoringService.register_thread_for_monitoring`. -/
def registerMonitor (monitored : List String) (user_id : ℕ) (thread_id : String) : List String :=
  let key := toString user_id ++ ":" ++ thread_id
  if monitored.contains key then monitored else monitored ++ [key]

/-- Result of `generate_and_send_reply`: the `(reply_sent, response)` pair
plus the updated state and call trace. -/
structure GenResult where
  reply_sent : Bool
  resp : GenResp
  st : PipelineState
  tr : Trace

/-- `AutoReplyManager.generate_and_send_reply`.  The embedding/search/context
stages have no tracked effects (search errors are caught with a general
search fallback) and are elided; the rest is transcribed branch by branch. -/
def generate_and_send_reply (env : Env) (st : PipelineState) (tr : Trace)
    (thread : ThreadData) (classification : String) : GenResult :=
  match get_active_limit st.limits env.now env.userId "send_email" with
  | some r => ⟨false, .rateLimited (.iso r.retry_after), st, tr⟩
  | none =>
      match thread.messages.getLast? with
      | none => ⟨false, .noResp, st, tr⟩
      | some _latest =>
          if strLower classification = "irrelevant" then
            ⟨false, .skippedIrrelevant, st, tr⟩
          else
            let tr1 : Trace := { tr with composeCalls := tr.composeCalls + 1 }
            match truthyStr env.replyContent with
            | none => ⟨false, .noResp, st, tr1⟩
            | some _rc =>
                let tr2 : Trace := { tr1 with gmailSendCalls := tr1.gmailSendCalls + 1 }
                match send_email env st.limits with
                | (.ok ids, db1) =>
                    ⟨true, .sendOk ids.1 ids.2,
                      { st with
                          limits := db1
                          monitored := registerMonitor st.monitored env.userId thread.thread_id },
                      tr2⟩
                | (.error e, db1) =>
                    if containsSubstr "429" e && containsSubstr "rate limit exceeded" (strLower e) then
                      match searchRetryAfter e with
                      | some ts =>
                          match env.parseDate ts with
                          | some t =>
                              ⟨false, .rateLimited (.raw ts),
                                { st with limits := add_limit db1 env.userId t "send_email" }, tr2⟩
                          | none =>
                              ⟨false, .rateLimited .unknownDate, { st with limits := db1 }, tr2⟩
                      | none =>
                          ⟨false, .rateLimited .unknownDate, { st with limits := db1 }, tr2⟩
                    else ⟨false, .noResp, { st with limits := db1 }, tr2⟩

/-- `AutoReplyManager._user_already_replied`. -/
def user_already_replied (messages : List Msg) (user_email : String) : Bool :=
  if messages.length < 2 then false
  else messages.dropLast.reverse.any (fun m => m.sender == user_email)

/-- `set.add` on the insertion-ordered model of a Python set. -/
def setAdd (s : List String) (x : String) : List String :=
  if s.contains x then s else s ++ [x]

/-- One thread-monitoring check (errors inside it are swallowed by the
caller, so it always returns control). -/
def monitorCheck (env : Env) (st : PipelineState) (tr : Trace) : PipelineState × Trace :=
  ({ st with store := env.monitorStore st.store, monitored := env.monitorMonitored st.monitored },
   { tr with monitorChecks := tr.monitorChecks + 1 })

/-- The exceptions reaching `process_single_email`'s outer handler in the
embedded paths; `str(KeyError("classification"))` renders with the quoted
key name. -/
inductive PyErr
  | keyErrorClassification
  | indexErrorMessages
  | raised (s : String)
deriving DecidableEq

/-- The distinct result dict shapes `process_single_email` builds, by their
`"message"` strings. -/
inductive ProcMsg
  | rateLimitInEffect (retry_after : ℤ)
  | errorGettingMessage (e : String)
  | noThreadIdFound
  | emailAlreadyProcessed
  | emailSkipped
  | autoReplySent (thread_id : String)
  | rateLimitReached (details : GenResp)
  | failedToSend (details : GenResp)
  | errorProcessing (e : PyErr)
deriving DecidableEq

/-- `process_single_email` normally returns a dict, but its irrelevant-branch
`return False, {...}` produces a pair instead. -/
inductive ProcOutput
  | dict (success : Bool) (msg : ProcMsg)
  | pair (reply_sent : Bool) (resp : GenResp)
deriving DecidableEq

structure ProcResult where
  out : ProcOutput
  st : PipelineState
  tr : Trace

/-- The tail of `process_single_email` after `generate_and_send_reply`
returns `(reply_sent, response)`: the post-attempt monitoring call, marking
the id processed on success, and the choice among the three result dicts. -/
def afterReply (env : Env) (email_id : String) (thread_id : String) (g : GenResult) :
    ProcResult :=
  let p := monitorCheck env g.st g.tr
  if g.reply_sent then
    ⟨.dict true (.autoReplySent thread_id),
      { p.1 with processed := setAdd p.1.processed email_id }, p.2⟩
  else
    match g.resp with
    | .rateLimited ra => ⟨.dict false (.rateLimitReached (.rateLimited ra)), p.1, p.2⟩
    | resp => ⟨.dict false (.failedToSend resp), p.1, p.2⟩

/-- `AutoReplyManager.process_single_email`, transcribed branch by branch:
rate-limit gate, message fetch, thread-id check, thread fetch, the
`processed_message_ids` dedup check, the too-old/already-replied skip (with
its monitoring side call), classification (a failed classifier result has no
`"classification"` key, so the subscript raises into the outer handler),
the pre-reply upsert, the irrelevant tuple return, the reply attempt, the
post-attempt monitoring call, and the result dicts. -/
def process_single_email (env : Env) (st : PipelineState) (email_id : String) : ProcResult :=
  match get_active_limit st.limits env.now env.userId "send_email" with
  | some r => ⟨.dict false (.rateLimitInEffect r.retry_after), st, trace0⟩
  | none =>
  match env.getMessage with
  | .error e => ⟨.dict false (.errorGettingMessage e), st, trace0⟩
  | .ok tidOpt =>
  match truthyStr tidOpt with
  | none => ⟨.dict false .noThreadIdFound, st, trace0⟩
  | some thread_id =>
  match env.getThread with
  | .error e =>
      let p := monitorCheck env st trace0
      ⟨.dict false (.errorProcessing (.raised e)), p.1, p.2⟩
  | .ok thread =>
  match thread.messages.getLast? with
  | none =>
      let p := monitorCheck env st trace0
      ⟨.dict false (.errorProcessing .indexErrorMessages), p.1, p.2⟩
  | some latest =>
  if st.processed.contains email_id then
    ⟨.dict true .emailAlreadyProcessed, st, trace0⟩
  else if latest.date ≤ env.now - 3600 || user_already_replied thread.messages env.userEmail then
    let p := monitorCheck env st trace0
    ⟨.dict true .emailSkipped, p.1, p.2⟩
  else
    let tr1 : Trace := { trace0 with classifyCalls := 1 }
    match env.classify with
    | none =>
        let p := monitorCheck env st tr1
        ⟨.dict false (.errorProcessing .keyErrorClassification), p.1, p.2⟩
    | some classification =>
        let upres : PipelineState × Trace × ThreadData :=
          if (thread.text_content.getD "") = "" then (st, tr1, thread)
          else
            let thread1 : ThreadData :=
              { thread with embedding := some env.embedVal, category := some classification }
            ({ st with store := (upsert_thread st.store env.userId thread1).2 },
             { tr1 with upsertCalls := tr1.upsertCalls + 1 }, thread1)
        if strLower classification = "irrelevant" then
          ⟨.pair false .skippedIrrelevant, upres.1, upres.2.1⟩
        else
          afterReply env email_id thread_id
            (generate_and_send_reply env upres.1 upres.2.1 upres.2.2 classification)

/-- The result dict of `process_history_updates` as `check_emails_for_user`
inspects it: its `"success"` value, whether the `"latest_history_id"` key is
present, and that key's (possibly `None`) value. -/
structure PHResult where
  success : Bool
  latest_present : Bool
  latest : Option String
deriving DecidableEq

/-- The outcomes of one `check_emails_for_user` cycle. -/
inductive PollOut
  | rateLimitedSkip
  | initialized
  | processed (r : PHResult)
deriving DecidableEq

/-- `check_emails_for_user`: skip under an active rate limit; with no stored
(truthy) cursor, store the profile's current history id and return without
processing; otherwise run `process_history_updates` and store its
`latest_history_id` only when it reports success and carries the key.
Returns (result, new cursor, whether processing ran). -/
def check_emails_for_user (limits : List LimitRecord) (now : ℤ) (userId : ℕ)
    (cursor : Option String) (profileHistoryId : Option String) (ph : PHResult) :
    PollOut × Option String × Bool :=
  match get_active_limit limits now userId "send_email" with
  | some _ => (.rateLimitedSkip, cursor, false)
  | none =>
      match truthyStr cursor with
      | none => (.initialized, profileHistoryId, false)
      | some h =>
          let newCursor := if ph.success && ph.latest_present then ph.latest else some h
          (.processed ph, newCursor, true)

/-- A one-message thread received at instant 9000. -/
def wThread : ThreadData :=
  ⟨"t1", "s", [⟨"alice@x.com", [], 9000, "sn", some "b"⟩], ["alice@x.com"], 1, "2025",
   some "tc", none, none⟩

/-- A benign environment: fresh recent mail, classifier succeeds, composition
succeeds, the provider send succeeds. -/
def wEnv : Env :=
  { now := 10000, userId := 1, userEmail := "me@x.com",
    getMessage := .ok (some "t1"), getThread := .ok wThread,
    classify := some "Questions", embedVal := 7, replyContent := some "hello",
    gmailSend := .ok ("m9", "t1"), parseDate := fun _ => some 99999,
    monitorStore := id, monitorMonitored := id }

/-- An active send rate limit for user 1 until instant 99999. -/
def wLim : LimitRecord := ⟨1, "send_email", 99999, true⟩

/-- Empty pipeline state. -/
def wSt : PipelineState := ⟨[], [], [], []⟩

/-- Pipeline state with the active rate limit recorded. -/
def wStLim : PipelineState := ⟨[wLim], [], [], []⟩

/-- Whether an outcome is the "Auto-reply sent successfully" dict. -/
def isSentOut : ProcOutput → Bool
  | .dict _ (.autoReplySent _) => true
  | _ => false

/-- The state after folding a sequence of `process_single_email` invocations,
each with its own environment and message id, through the shared state. -/
def runCalls (calls : List (Env × String)) (st : PipelineState) : PipelineState :=
  calls.foldl (fun s c => (process_single_email c.1 s c.2).st) st

/-- A provider send error carrying the rate-limit markers but no parseable
timestamp (no "until <iso>" and no "Retry after <...>"). -/
def wEnvRL : Env := { wEnv with gmailSend := .error "HttpError 429 user rate limit exceeded" }

/-- The benign environment with the classifier yielding "Irrelevant". -/
def wEnvIrr : Env := { wEnv with classify := some "Irrelevant" }

/-- The benign environment with a failing classifier (its result dict has no
`"classification"` key). -/
def wEnvNoCls : Env := { wEnv with classify := none }

/-! ## Theorems -/

theorem alookup_append {α : Type} (key : String) (s t : List (String × α)) :
    alookup key (s ++ t) = ((alookup key s).rec (alookup key t) (fun v => some v) : Option α) := by
  induction s with
  | nil => simp [alookup]
  | cons p rest ih =>
      by_cases h : p.1 = key <;> simp [alookup, h, ih]

theorem alookup_isSome_iff {α : Type} (key : String) (s : List (String × α)) :
    (alookup key s).isSome ↔ key ∈ s.map Prod.fst := by
  induction s with
  | nil => simp [alookup]
  | cons p rest ih =>
      by_cases h : p.1 = key
      · simp [alookup, h]
      · simp [alookup, h, ih, Ne.symm h]

theorem alookup_eq_none_iff {α : Type} (key : String) (s : List (String × α)) :
    alookup key s = none ↔ key ∉ s.map Prod.fst := by
  rw [← alookup_isSome_iff]
  cases alookup key s <;> simp

theorem scoreD_updateScore_self (key : String) (v : ℚ) (s : List (String × ℚ)) :
    scoreD key (updateScore key v s) = scoreD key s + v := by
  induction s with
  | nil => simp [updateScore, scoreD, alookup]
  | cons p rest ih =>
      by_cases h : p.1 = key
      · simp [updateScore, h, scoreD, alookup]
      · simp [updateScore, h, scoreD, alookup] at ih ⊢
        exact ih

theorem scoreD_updateScore_other (key key' : String) (hne : key' ≠ key) (v : ℚ)
    (s : List (String × ℚ)) :
    scoreD key' (updateScore key v s) = scoreD key' s := by
  have hne' : key ≠ key' := fun e => hne e.symm
  induction s with
  | nil => simp [updateScore, scoreD, alookup, hne']
  | cons p rest ih =>
      by_cases h : p.1 = key
      · have hp : p.1 ≠ key' := by rw [h]; exact hne'
        simp [updateScore, h, scoreD, alookup, hp, hne, hne']
      · by_cases h' : p.1 = key'
        · simp [updateScore, h, scoreD, alookup, h', hne, hne']
        · simp [updateScore, h, scoreD, alookup, h', hne, hne'] at ih ⊢
          exact ih

theorem updateScore_keys (key : String) (v : ℚ) (s : List (String × ℚ)) :
    (updateScore key v s).map Prod.fst =
      if key ∈ s.map Prod.fst then s.map Prod.fst else s.map Prod.fst ++ [key] := by
  induction s with
  | nil => simp [updateScore]
  | cons p rest ih =>
      by_cases h : p.1 = key
      · simp [updateScore, h]
      · by_cases hmem : key ∈ rest.map Prod.fst <;>
          simp [updateScore, h, ih, hmem, Ne.symm h]

theorem insertItem_alookup (key : String) (it : Item) (m : List (String × Item)) (key' : String) :
    alookup key' (insertItem key it m) =
      if key' = key then ((alookup key m).rec (some it) (fun v => some v) : Option Item)
      else alookup key' m := by
  unfold insertItem
  by_cases h : key' = key
  · subst h
    cases hm : alookup key' m with
    | some v => simp [hm]
    | none => simp [hm, alookup_append, alookup]
  · have h2 : key ≠ key' := fun e => h e.symm
    cases hm : alookup key m with
    | some v => simp [hm, h]
    | none =>
        simp only [hm, alookup_append, h, if_neg h]
        cases hk : alookup key' m with
        | some v => simp [hk]
        | none => simp [hk, alookup, h, h2]

theorem processFrom_scoreD (k : ℕ) (key : String) :
    ∀ (l : List Item) (st : RRFState) (r : ℕ),
      scoreD key (processFrom k st r l).scores = scoreD key st.scores + contribFrom k r key l := by
  intro l
  induction l with
  | nil => intro st r; simp [processFrom, contribFrom]
  | cons it rest ih =>
      intro st r
      rw [processFrom, ih, contribFrom]
      unfold processItem
      cases hk : itemKey it with
      | none =>
          have : ¬ itemKey it = some key := by simp [hk]
          simp [this, hk]
      | some key0 =>
          by_cases he : key0 = key
          · subst he
            simp [hk, scoreD_updateScore_self, add_comm, add_left_comm, add_assoc]
          · have hne : ¬ itemKey it = some key := by simp [hk, he]
            simp [hne, hk, he, scoreD_updateScore_other key0 key (fun e => he e.symm)]

theorem seenFold_cons (ks : List String) (key : String) (rest : List String) :
    seenFold ks (key :: rest) = seenFold (if key ∈ ks then ks else ks ++ [key]) rest := rfl

theorem processFrom_keys (k : ℕ) :
    ∀ (l : List Item) (st : RRFState) (r : ℕ),
      (processFrom k st r l).scores.map Prod.fst = seenFold (st.scores.map Prod.fst) (keysOf l) := by
  intro l
  induction l with
  | nil => intro st r; simp [processFrom, seenFold, keysOf]
  | cons it rest ih =>
      intro st r
      rw [processFrom, ih]
      unfold processItem
      cases hk : itemKey it with
      | none => simp [hk, keysOf, List.filterMap_cons]
      | some key0 =>
          have hkeys : keysOf (it :: rest) = key0 :: keysOf rest := by
            simp [keysOf, List.filterMap_cons, hk]
          rw [hkeys, seenFold_cons]
          simp only [hk]
          rw [updateScore_keys]

theorem contribFrom_of_not_mem (k : ℕ) (key : String) :
    ∀ (l : List Item) (r : ℕ), key ∉ keysOf l → contribFrom k r key l = 0 := by
  intro l
  induction l with
  | nil => intro r _; simp [contribFrom]
  | cons it rest ih =>
      intro r hmem
      rw [contribFrom]
      have h1 : ¬ itemKey it = some key := by
        intro he
        exact hmem (by simp [keysOf, List.filterMap_cons, he])
      have h2 : key ∉ keysOf rest := by
        intro hr
        apply hmem
        simp only [keysOf, List.filterMap_cons]
        cases itemKey it <;> simp [keysOf] at hr ⊢ <;> [exact hr; exact Or.inr hr]
      simp [h1, ih _ h2]

theorem contribFrom_eq_rrfContrib (k : ℕ) (key : String) (l : List Item)
    (hnd : (keysOf l).Nodup) :
    contribFrom k 0 key l = rrfContrib k l key := by
  unfold rrfContrib
  suffices h : ∀ (l : List Item) (r : ℕ), (keysOf l).Nodup →
      contribFrom k r key l = (match rankFrom r key l with
        | some ρ => 1 / ((k : ℚ) + ρ + 1)
        | none => 0) by
    exact h l 0 hnd
  intro l
  induction l with
  | nil => intro r _; simp [contribFrom, rankFrom]
  | cons it rest ih =>
      intro r hnd
      rw [contribFrom, rankFrom]
      by_cases hk : itemKey it = some key
      · have hkeys : keysOf (it :: rest) = key :: keysOf rest := by
          simp [keysOf, List.filterMap_cons, hk]
        rw [hkeys] at hnd
        have hnot : key ∉ keysOf rest := (List.nodup_cons.mp hnd).1
        simp [hk, contribFrom_of_not_mem k key rest _ hnot]
      · have hnd' : (keysOf rest).Nodup := by
          simp only [keysOf, List.filterMap_cons] at hnd
          cases hik : itemKey it with
          | none => rw [hik] at hnd; exact hnd
          | some s => rw [hik] at hnd; exact (List.nodup_cons.mp hnd).2
        simp [hk, ih _ hnd']

theorem insertDesc_perm (p : String × ℚ) (l : List (String × ℚ)) :
    List.Perm (insertDesc p l) (p :: l) := by
  induction l with
  | nil => simp [insertDesc]
  | cons q rest ih =>
      by_cases h : q.2 ≤ p.2
      · simp [insertDesc, h]
      · rw [insertDesc, if_neg h]
        exact (ih.cons q).trans (List.Perm.swap p q rest)

theorem sortDesc_perm (l : List (String × ℚ)) : List.Perm (sortDesc l) l := by
  induction l with
  | nil => simp [sortDesc]
  | cons p rest ih => exact (insertDesc_perm p (sortDesc rest)).trans (ih.cons p)

theorem insertDesc_pairwise (p : String × ℚ) (l : List (String × ℚ))
    (h : l.Pairwise (fun a b => b.2 ≤ a.2)) :
    (insertDesc p l).Pairwise (fun a b => b.2 ≤ a.2) := by
  induction l with
  | nil => simp [insertDesc]
  | cons q rest ih =>
      rcases List.pairwise_cons.mp h with ⟨hq, hrest⟩
      by_cases hle : q.2 ≤ p.2
      · rw [insertDesc, if_pos hle]
        refine List.pairwise_cons.mpr ⟨?_, h⟩
        intro x hx
        rcases List.mem_cons.mp hx with hx | hx
        · rw [hx]; exact hle
        · exact le_trans (hq x hx) hle
      · rw [insertDesc, if_neg hle]
        refine List.pairwise_cons.mpr ⟨?_, ih hrest⟩
        intro x hx
        have hx' := (insertDesc_perm p rest).mem_iff.mp hx
        rcases List.mem_cons.mp hx' with hx' | hx'
        · rw [hx']; exact le_of_lt (lt_of_not_le hle)
        · exact hq x hx'

theorem sortDesc_pairwise (l : List (String × ℚ)) :
    (sortDesc l).Pairwise (fun a b => b.2 ≤ a.2) := by
  induction l with
  | nil => simp [sortDesc]
  | cons p rest ih => exact insertDesc_pairwise p (sortDesc rest) ih

theorem insertDesc_filter_eq (p : String × ℚ) (l : List (String × ℚ)) (c : ℚ) :
    (insertDesc p l).filter (fun q => q.2 = c) =
      if p.2 = c then p :: l.filter (fun q => q.2 = c) else l.filter (fun q => q.2 = c) := by
  induction l with
  | nil => by_cases h : p.2 = c <;> simp [insertDesc, List.filter, h]
  | cons q rest ih =>
      by_cases hle : q.2 ≤ p.2
      · rw [insertDesc, if_pos hle]
        by_cases h : p.2 = c <;> simp [List.filter_cons, h]
      · rw [insertDesc, if_neg hle]
        rw [List.filter_cons, List.filter_cons]
        by_cases hq : q.2 = c
        · have hlt : p.2 < q.2 := lt_of_not_le hle
          have hp : ¬ p.2 = c := fun hp => absurd hlt (by rw [hp, hq]; exact lt_irrefl c)
          simp [hq, hp, ih]
        · simp [hq, ih]

theorem sortDesc_filter_eq (l : List (String × ℚ)) (c : ℚ) :
    (sortDesc l).filter (fun q => q.2 = c) = l.filter (fun q => q.2 = c) := by
  induction l with
  | nil => simp [sortDesc]
  | cons p rest ih =>
      rw [sortDesc, insertDesc_filter_eq, List.filter_cons]
      by_cases h : p.2 = c <;> simp [h, ih]

theorem insertItem_keys (key : String) (it : Item) (m : List (String × Item)) :
    (insertItem key it m).map Prod.fst =
      if key ∈ m.map Prod.fst then m.map Prod.fst else m.map Prod.fst ++ [key] := by
  unfold insertItem
  cases hm : alookup key m with
  | some v =>
      have : key ∈ m.map Prod.fst := (alookup_isSome_iff key m).mp (by simp [hm])
      simp [this]
  | none =>
      have : key ∉ m.map Prod.fst := (alookup_eq_none_iff key m).mp hm
      simp [this]

theorem processFrom_idToItem (k : ℕ) (key : String) :
    ∀ (l : List Item) (st : RRFState) (r : ℕ),
      alookup key (processFrom k st r l).idToItem =
        (match alookup key st.idToItem with
          | some v => some v
          | none => firstWith key l) := by
  intro l
  induction l with
  | nil =>
      intro st r
      cases hm : alookup key st.idToItem <;>
        simp [processFrom, firstWith, List.find?, hm]
  | cons it rest ih =>
      intro st r
      rw [processFrom, ih]
      unfold processItem
      cases hk : itemKey it with
      | none =>
          have hd : decide (itemKey it = some key) = false := by simp [hk]
          simp only [hk, firstWith, List.find?_cons, hd]
          rfl
      | some key0 =>
          by_cases he : key = key0
          · subst he
            have hd : decide (itemKey it = some key) = true := by simp [hk]
            simp only [hk, firstWith, List.find?_cons, hd]
            rw [insertItem_alookup]
            cases hm : alookup key st.idToItem <;> simp [hm]
          · simp only [hk]
            rw [insertItem_alookup, if_neg he]
            have hd : decide (itemKey it = some key) = false := by simp [hk, Ne.symm he]
            cases hm : alookup key st.idToItem <;>
              simp [hm, firstWith, List.find?_cons, hd, Ne.symm he]

theorem processFrom_keys_align (k : ℕ) :
    ∀ (l : List Item) (st : RRFState) (r : ℕ),
      st.scores.map Prod.fst = st.idToItem.map Prod.fst →
      (processFrom k st r l).scores.map Prod.fst = (processFrom k st r l).idToItem.map Prod.fst := by
  intro l
  induction l with
  | nil => intro st r h; simpa [processFrom] using h
  | cons it rest ih =>
      intro st r h
      rw [processFrom]
      apply ih
      unfold processItem
      cases hk : itemKey it with
      | none => simpa using h
      | some key0 =>
          simp only [hk, updateScore_keys, insertItem_keys]
          rw [h]

theorem processFrom_keys_nodup (k : ℕ) :
    ∀ (l : List Item) (st : RRFState) (r : ℕ),
      (st.scores.map Prod.fst).Nodup →
      ((processFrom k st r l).scores.map Prod.fst).Nodup := by
  intro l
  induction l with
  | nil => intro st r h; simpa [processFrom] using h
  | cons it rest ih =>
      intro st r h
      rw [processFrom]
      apply ih
      unfold processItem
      cases hk : itemKey it with
      | none => simpa using h
      | some key0 =>
          simp only [hk, updateScore_keys]
          by_cases hmem : key0 ∈ st.scores.map Prod.fst
          · simpa [hmem] using h
          · simp [hmem, List.nodup_append, h]

theorem processFrom_item_inv (k : ℕ) :
    ∀ (l : List Item) (st : RRFState) (r : ℕ),
      (∀ key it, alookup key st.idToItem = some it → itemKey it = some key) →
      (∀ key it, alookup key (processFrom k st r l).idToItem = some it → itemKey it = some key) := by
  intro l
  induction l with
  | nil => intro st r h; simpa [processFrom] using h
  | cons it0 rest ih =>
      intro st r h
      rw [processFrom]
      apply ih
      intro key it hit
      revert hit
      unfold processItem
      cases hk : itemKey it0 with
      | none => exact h key it
      | some key0 =>
          simp only [hk]
          rw [insertItem_alookup]
          by_cases he : key = key0
          · subst he
            cases hm : alookup key st.idToItem with
            | some v =>
                intro hv
                simp at hv
                exact hv ▸ h key v hm
            | none =>
                intro hv
                simp at hv
                exact hv ▸ hk
          · intro hv
            rw [if_neg he] at hv
            exact h key it hv

theorem mem_seenFold (key : String) :
    ∀ (new ks : List String), key ∈ seenFold ks new ↔ key ∈ ks ∨ key ∈ new := by
  intro new
  induction new with
  | nil => intro ks; simp [seenFold]
  | cons x rest ih =>
      intro ks
      rw [seenFold_cons, ih]
      by_cases hx : x ∈ ks
      · simp [hx]
        constructor
        · intro h
          rcases h with h | h
          · exact Or.inl h
          · exact Or.inr (Or.inr h)
        · intro h
          rcases h with h | h | h
          · exact Or.inl h
          · exact Or.inl (h ▸ hx)
          · exact Or.inr h
      · simp [hx, List.mem_append]
        constructor
        · intro h
          rcases h with (h | h) | h
          · exact Or.inl h
          · exact Or.inr (Or.inl h)
          · exact Or.inr (Or.inr h)
        · intro h
          rcases h with h | h | h
          · exact Or.inl (Or.inl h)
          · exact Or.inl (Or.inr h)
          · exact Or.inr h

theorem alookup_of_mem_nodup {α : Type} (p : String × α) (s : List (String × α))
    (hmem : p ∈ s) (hnd : (s.map Prod.fst).Nodup) : alookup p.1 s = some p.2 := by
  induction s with
  | nil => simp at hmem
  | cons q rest ih =>
      rcases List.mem_cons.mp hmem with h | h
      · subst h
        simp [alookup]
      · have hq : q.1 ≠ p.1 := by
          intro he
          have : q.1 ∉ rest.map Prod.fst := (List.nodup_cons.mp (by simpa using hnd)).1
          exact this (he ▸ (List.mem_map.mpr ⟨p, h, rfl⟩))
        rw [alookup, if_neg hq]
        exact ih h (List.nodup_cons.mp (by simpa using hnd)).2

theorem map_itemKey_filterMap (m : List (String × Item)) :
    ∀ (F : List (String × ℚ)),
      (∀ p ∈ F, ∃ it, alookup p.1 m = some it ∧ itemKey it = some p.1) →
      (F.filterMap (fun p => alookup p.1 m)).map itemKey = F.map (fun p => some p.1) := by
  intro F
  induction F with
  | nil => intro _; simp
  | cons p rest ih =>
      intro h
      obtain ⟨it, hit, hik⟩ := h p (List.mem_cons_self p rest)
      rw [List.filterMap_cons, hit]
      simp only [List.map_cons, hik]
      rw [ih (fun q hq => h q (List.mem_cons_of_mem p hq))]

/-- Claim C3: for every pair of ranked input lists, `reciprocal_rank_fusion`
assigns each thread id the fused score `Σ 1/(60 + rank + 1)` over every list
in which it appears (rank counted from 0), keys items by thread id so an item
appearing in both lists accumulates score from both, keeps the first-seen
item per key (first-seen list wins), and returns items in descending fused
score with ties broken by insertion (first-seen) order. -/
theorem reciprocal_rank_fusion_spec (l1 l2 : List Item)
    (hnd1 : (keysOf l1).Nodup) (hnd2 : (keysOf l2).Nodup) :
    (∀ p ∈ (rrfState 60 [l1, l2]).scores,
        p.2 = rrfContrib 60 l1 p.1 + rrfContrib 60 l2 p.1) ∧
    (rrfState 60 [l1, l2]).scores.map Prod.fst =
        seenFold (seenFold [] (keysOf l1)) (keysOf l2) ∧
    (∀ key, key ∈ (rrfState 60 [l1, l2]).scores.map Prod.fst ↔
        key ∈ keysOf l1 ∨ key ∈ keysOf l2) ∧
    (∀ key, alookup key (rrfState 60 [l1, l2]).idToItem = firstWith2 key l1 l2) ∧
    (sortDesc (rrfState 60 [l1, l2]).scores).Pairwise (fun a b => b.2 ≤ a.2) ∧
    (∀ c, (sortDesc (rrfState 60 [l1, l2]).scores).filter (fun q => q.2 = c) =
        (rrfState 60 [l1, l2]).scores.filter (fun q => q.2 = c)) ∧
    (reciprocal_rank_fusion [l1, l2] 60).map itemKey =
        (sortDesc (rrfState 60 [l1, l2]).scores).map (fun p => some p.1) := by
  have hstate : rrfState 60 [l1, l2] =
      processFrom 60 (processFrom 60 ⟨[], []⟩ 0 l1) 0 l2 := rfl
  have hnodS : ((rrfState 60 [l1, l2]).scores.map Prod.fst).Nodup := by
    rw [hstate]
    exact processFrom_keys_nodup 60 l2 _ 0
      (processFrom_keys_nodup 60 l1 ⟨[], []⟩ 0 (by simp))
  have hkeys : (rrfState 60 [l1, l2]).scores.map Prod.fst =
      seenFold (seenFold [] (keysOf l1)) (keysOf l2) := by
    rw [hstate, processFrom_keys, processFrom_keys]
    rfl
  have halign : (rrfState 60 [l1, l2]).scores.map Prod.fst =
      (rrfState 60 [l1, l2]).idToItem.map Prod.fst := by
    rw [hstate]
    exact processFrom_keys_align 60 l2 _ 0
      (processFrom_keys_align 60 l1 ⟨[], []⟩ 0 rfl)
  have hinv : ∀ key it, alookup key (rrfState 60 [l1, l2]).idToItem = some it →
      itemKey it = some key := by
    rw [hstate]
    refine processFrom_item_inv 60 l2 _ 0 (processFrom_item_inv 60 l1 ⟨[], []⟩ 0 ?_)
    intro key it h
    simp [alookup] at h
  refine ⟨?_, hkeys, ?_, ?_, sortDesc_pairwise _, fun c => sortDesc_filter_eq _ c, ?_⟩
  · intro p hp
    have hl : alookup p.1 (rrfState 60 [l1, l2]).scores = some p.2 :=
      alookup_of_mem_nodup p _ hp hnodS
    have hsc : scoreD p.1 (rrfState 60 [l1, l2]).scores = p.2 := by simp [scoreD, hl]
    rw [← hsc, hstate]
    rw [processFrom_scoreD, processFrom_scoreD]
    have h0 : scoreD p.1 (⟨[], []⟩ : RRFState).scores = 0 := rfl
    rw [h0, zero_add, contribFrom_eq_rrfContrib 60 p.1 l1 hnd1,
        contribFrom_eq_rrfContrib 60 p.1 l2 hnd2]
  · intro key
    rw [hkeys, mem_seenFold, mem_seenFold]
    simp
  · intro key
    rw [hstate, processFrom_idToItem, processFrom_idToItem]
    rfl
  · show ((sortDesc (rrfState 60 [l1, l2]).scores).filterMap
        (fun p => alookup p.1 (rrfState 60 [l1, l2]).idToItem)).map itemKey = _
    apply map_itemKey_filterMap
    intro p hp
    have hpS : p ∈ (rrfState 60 [l1, l2]).scores := (sortDesc_perm _).mem_iff.mp hp
    have hkey : p.1 ∈ (rrfState 60 [l1, l2]).idToItem.map Prod.fst := by
      rw [← halign]
      exact List.mem_map.mpr ⟨p, hpS, rfl⟩
    have hsome := (alookup_isSome_iff p.1 _).mpr hkey
    obtain ⟨it, hit⟩ := Option.isSome_iff_exists.mp hsome
    exact ⟨it, hit, hinv p.1 it hit⟩

/-- Witness for claim C3 at two concrete two-element ranked lists with an
overlapping thread id. -/
theorem reciprocal_rank_fusion_spec_witness :
    (keysOf [⟨some "A", none, 0⟩, ⟨some "B", none, 1⟩]).Nodup ∧
    (keysOf [⟨some "B", none, 2⟩, ⟨some "C", none, 3⟩]).Nodup ∧
    ((∀ p ∈ (rrfState 60 [[⟨some "A", none, 0⟩, ⟨some "B", none, 1⟩],
        [⟨some "B", none, 2⟩, ⟨some "C", none, 3⟩]]).scores,
        p.2 = rrfContrib 60 [⟨some "A", none, 0⟩, ⟨some "B", none, 1⟩] p.1 +
          rrfContrib 60 [⟨some "B", none, 2⟩, ⟨some "C", none, 3⟩] p.1) ∧
      (rrfState 60 [[⟨some "A", none, 0⟩, ⟨some "B", none, 1⟩],
        [⟨some "B", none, 2⟩, ⟨some "C", none, 3⟩]]).scores.map Prod.fst =
        seenFold (seenFold [] (keysOf [⟨some "A", none, 0⟩, ⟨some "B", none, 1⟩]))
          (keysOf [⟨some "B", none, 2⟩, ⟨some "C", none, 3⟩]) ∧
      (∀ key, key ∈ (rrfState 60 [[⟨some "A", none, 0⟩, ⟨some "B", none, 1⟩],
          [⟨some "B", none, 2⟩, ⟨some "C", none, 3⟩]]).scores.map Prod.fst ↔
          key ∈ keysOf [⟨some "A", none, 0⟩, ⟨some "B", none, 1⟩] ∨
          key ∈ keysOf [⟨some "B", none, 2⟩, ⟨some "C", none, 3⟩]) ∧
      (∀ key, alookup key (rrfState 60 [[⟨some "A", none, 0⟩, ⟨some "B", none, 1⟩],
          [⟨some "B", none, 2⟩, ⟨some "C", none, 3⟩]]).idToItem =
          firstWith2 key [⟨some "A", none, 0⟩, ⟨some "B", none, 1⟩]
            [⟨some "B", none, 2⟩, ⟨some "C", none, 3⟩]) ∧
      (sortDesc (rrfState 60 [[⟨some "A", none, 0⟩, ⟨some "B", none, 1⟩],
          [⟨some "B", none, 2⟩, ⟨some "C", none, 3⟩]]).scores).Pairwise
        (fun a b => b.2 ≤ a.2) ∧
      (∀ c, (sortDesc (rrfState 60 [[⟨some "A", none, 0⟩, ⟨some "B", none, 1⟩],
          [⟨some "B", none, 2⟩, ⟨some "C", none, 3⟩]]).scores).filter (fun q => q.2 = c) =
          (rrfState 60 [[⟨some "A", none, 0⟩, ⟨some "B", none, 1⟩],
            [⟨some "B", none, 2⟩, ⟨some "C", none, 3⟩]]).scores.filter (fun q => q.2 = c)) ∧
      (reciprocal_rank_fusion [[⟨some "A", none, 0⟩, ⟨some "B", none, 1⟩],
          [⟨some "B", none, 2⟩, ⟨some "C", none, 3⟩]] 60).map itemKey =
        (sortDesc (rrfState 60 [[⟨some "A", none, 0⟩, ⟨some "B", none, 1⟩],
          [⟨some "B", none, 2⟩, ⟨some "C", none, 3⟩]]).scores).map (fun p => some p.1)) :=
  ⟨by decide, by decide,
    reciprocal_rank_fusion_spec
      [⟨some "A", none, 0⟩, ⟨some "B", none, 1⟩]
      [⟨some "B", none, 2⟩, ⟨some "C", none, 3⟩] (by decide) (by decide)⟩

theorem seenFold_noop (new : List String) :
    ∀ ks : List String, (∀ key ∈ new, key ∈ ks) → seenFold ks new = ks := by
  induction new with
  | nil => intro ks _; rfl
  | cons x rest ih =>
      intro ks h
      rw [seenFold_cons, if_pos (h x (List.mem_cons_self x rest))]
      exact ih ks (fun key hk => h key (List.mem_cons_of_mem x hk))

theorem processFrom_idToItem_stable (k : ℕ) :
    ∀ (l : List Item) (st : RRFState) (r : ℕ),
      (∀ key ∈ keysOf l, key ∈ st.idToItem.map Prod.fst) →
      (processFrom k st r l).idToItem = st.idToItem := by
  intro l
  induction l with
  | nil => intro st r _; rfl
  | cons it rest ih =>
      intro st r h
      rw [processFrom]
      cases hk : itemKey it with
      | none =>
          have hst : processItem k st r it = st := by simp [processItem, hk]
          rw [hst]
          exact ih st _ (fun key hkey => h key (by simp [keysOf, List.filterMap_cons, hk] at hkey ⊢; exact hkey))
      | some key0 =>
          have hmem : key0 ∈ st.idToItem.map Prod.fst :=
            h key0 (by simp [keysOf, List.filterMap_cons, hk])
          have hsome : (alookup key0 st.idToItem).isSome := (alookup_isSome_iff _ _).mpr hmem
          obtain ⟨v, hv⟩ := Option.isSome_iff_exists.mp hsome
          have hins : processItem k st r it =
              { scores := updateScore key0 (1 / ((k : ℚ) + r + 1)) st.scores
                idToItem := st.idToItem } := by
            simp [processItem, hk, insertItem, hv]
          rw [hins]
          exact ih _ _ (fun key hkey => h key (by simp [keysOf, List.filterMap_cons, hk] at hkey ⊢; exact Or.inr hkey))

theorem alookup_map_dbl (key : String) (s : List (String × ℚ)) :
    alookup key (s.map (fun q => (q.1, 2 * q.2))) = (alookup key s).map (fun v => 2 * v) := by
  induction s with
  | nil => simp [alookup]
  | cons p rest ih =>
      by_cases h : p.1 = key <;> simp [alookup, h, ih]

theorem assoc_ext (s : List (String × ℚ)) :
    ∀ t : List (String × ℚ), s.map Prod.fst = t.map Prod.fst →
      (s.map Prod.fst).Nodup → (∀ key, alookup key s = alookup key t) → s = t := by
  induction s with
  | nil =>
      intro t hmap _ _
      cases t with
      | nil => rfl
      | cons q t' => simp at hmap
  | cons p s' ih =>
      intro t hmap hnd hl
      cases t with
      | nil => simp at hmap
      | cons q t' =>
          simp only [List.map_cons, List.cons.injEq] at hmap
          obtain ⟨hfst, hrest⟩ := hmap
          have hv : some p.2 = some q.2 := by
            have := hl p.1
            rw [alookup, if_pos rfl, alookup, if_pos hfst.symm] at this
            exact this
          have hnotin : p.1 ∉ s'.map Prod.fst := (List.nodup_cons.mp (by simpa using hnd)).1
          have hl' : ∀ key, alookup key s' = alookup key t' := by
            intro key
            by_cases hkp : key = p.1
            · subst hkp
              rw [(alookup_eq_none_iff p.1 s').mpr hnotin,
                  (alookup_eq_none_iff p.1 t').mpr (hrest ▸ hnotin)]
            · have := hl key
              rw [alookup, if_neg (fun e => hkp e.symm), alookup,
                  if_neg (fun e => hkp (hfst.symm ▸ e.symm))] at this
              exact this
          have hs' : s' = t' := ih t' hrest (List.nodup_cons.mp (by simpa using hnd)).2 hl'
          have hpq : p = q := Prod.ext hfst (Option.some.inj hv)
          rw [hpq, hs']

theorem insertDesc_map_dbl (p : String × ℚ) (l : List (String × ℚ)) :
    insertDesc (p.1, 2 * p.2) (l.map (fun q => (q.1, 2 * q.2))) =
      (insertDesc p l).map (fun q => (q.1, 2 * q.2)) := by
  induction l with
  | nil => simp [insertDesc]
  | cons q rest ih =>
      by_cases h : q.2 ≤ p.2
      · have h2 : 2 * q.2 ≤ 2 * p.2 := by linarith
        simp [insertDesc, h, h2]
      · have h2 : ¬ (2 * q.2 ≤ 2 * p.2) := by
          intro hc
          exact h (by linarith)
        simp [insertDesc, h, h2, ih]

theorem sortDesc_map_dbl (l : List (String × ℚ)) :
    sortDesc (l.map (fun q => (q.1, 2 * q.2))) = (sortDesc l).map (fun q => (q.1, 2 * q.2)) := by
  induction l with
  | nil => rfl
  | cons p rest ih =>
      simp only [List.map_cons, sortDesc, ih]
      exact insertDesc_map_dbl p (sortDesc rest)

/-- Claim C9: fusing a ranked list with itself yields the same output as
fusing it once; every key's fused score doubles but the returned ordering
(indeed the returned list) is unchanged. -/
theorem reciprocal_rank_fusion_idempotent (L : List Item) :
    reciprocal_rank_fusion [L, L] 60 = reciprocal_rank_fusion [L] 60 ∧
    ∀ key, scoreD key (rrfState 60 [L, L]).scores =
      2 * scoreD key (rrfState 60 [L]).scores := by
  have hst1 : rrfState 60 [L] = processFrom 60 ⟨[], []⟩ 0 L := rfl
  have hst2 : rrfState 60 [L, L] =
      processFrom 60 (processFrom 60 ⟨[], []⟩ 0 L) 0 L := rfl
  have hscore : ∀ key, scoreD key (rrfState 60 [L, L]).scores =
      2 * scoreD key (rrfState 60 [L]).scores := by
    intro key
    rw [hst1, hst2, processFrom_scoreD, processFrom_scoreD]
    have h0 : scoreD key (⟨[], []⟩ : RRFState).scores = 0 := rfl
    rw [h0]
    ring
  refine ⟨?_, hscore⟩
  have hkeys1 : (rrfState 60 [L]).scores.map Prod.fst = seenFold [] (keysOf L) := by
    rw [hst1, processFrom_keys]
    rfl
  have hmemL : ∀ key ∈ keysOf L, key ∈ (rrfState 60 [L]).scores.map Prod.fst := by
    intro key hk
    rw [hkeys1]
    exact (mem_seenFold key (keysOf L) []).mpr (Or.inr hk)
  have halign1 : (rrfState 60 [L]).scores.map Prod.fst =
      (rrfState 60 [L]).idToItem.map Prod.fst := by
    rw [hst1]
    exact processFrom_keys_align 60 L ⟨[], []⟩ 0 rfl
  have hitems : (rrfState 60 [L, L]).idToItem = (rrfState 60 [L]).idToItem := by
    rw [hst2, ← hst1]
    exact processFrom_idToItem_stable 60 L _ 0 (fun key hk => halign1 ▸ hmemL key hk)
  have hkeys2 : (rrfState 60 [L, L]).scores.map Prod.fst =
      (rrfState 60 [L]).scores.map Prod.fst := by
    rw [hst2, processFrom_keys, ← hst1]
    exact seenFold_noop (keysOf L) _ hmemL
  have hnd1 : ((rrfState 60 [L]).scores.map Prod.fst).Nodup := by
    rw [hst1]
    exact processFrom_keys_nodup 60 L ⟨[], []⟩ 0 (by simp)
  have hnd2 : ((rrfState 60 [L, L]).scores.map Prod.fst).Nodup := by
    rw [hkeys2]
    exact hnd1
  have hscores2 : (rrfState 60 [L, L]).scores =
      (rrfState 60 [L]).scores.map (fun q => (q.1, 2 * q.2)) := by
    apply assoc_ext
    · rw [hkeys2, List.map_map]
      rfl
    · exact hnd2
    · intro key
      rw [alookup_map_dbl]
      by_cases hmem : key ∈ (rrfState 60 [L]).scores.map Prod.fst
      · obtain ⟨v, hv⟩ := Option.isSome_iff_exists.mp ((alookup_isSome_iff key _).mpr hmem)
        have hmem2 : key ∈ (rrfState 60 [L, L]).scores.map Prod.fst := by
          rw [hkeys2]; exact hmem
        obtain ⟨w, hw⟩ := Option.isSome_iff_exists.mp ((alookup_isSome_iff key _).mpr hmem2)
        have := hscore key
        rw [scoreD, scoreD, hv, hw] at this
        simp at this
        rw [hv, hw, this]
        rfl
      · rw [(alookup_eq_none_iff key _).mpr (hkeys2 ▸ hmem),
            (alookup_eq_none_iff key _).mpr hmem]
        rfl
  show (sortDesc (rrfState 60 [L, L]).scores).filterMap
      (fun p => alookup p.1 (rrfState 60 [L, L]).idToItem) = _
  rw [hscores2, hitems, sortDesc_map_dbl, List.filterMap_map]
  rfl

theorem filter_deactivated_nil (u0 : ℕ) (t0 : String) (db : List LimitRecord) :
    List.filter (fun r => r.user_id == u0 && r.limit_type == t0 && r.is_active)
      (db.map (fun r =>
        if r.user_id == u0 && r.limit_type == t0 && r.is_active then
          { r with is_active := false }
        else r)) = [] := by
  rw [List.filter_eq_nil_iff]
  intro r hr
  obtain ⟨r0, _, hr0⟩ := List.mem_map.mp hr
  by_cases hc : (r0.user_id == u0 && r0.limit_type == t0 && r0.is_active : Bool) = true
  · rw [if_pos hc] at hr0
    rw [← hr0]
    simp
  · rw [if_neg hc] at hr0
    rw [← hr0]
    simpa using hc

theorem filter_deactivate_length_le (u0 : ℕ) (t0 : String) (u : ℕ) (t : String)
    (db : List LimitRecord) :
    (List.filter (fun r => r.user_id == u && r.limit_type == t && r.is_active)
      (db.map (fun r =>
        if r.user_id == u0 && r.limit_type == t0 && r.is_active then
          { r with is_active := false }
        else r))).length ≤
    (List.filter (fun r => r.user_id == u && r.limit_type == t && r.is_active) db).length := by
  induction db with
  | nil => simp
  | cons r rest ih =>
      simp only [List.map_cons, List.filter_cons]
      by_cases hc : (r.user_id == u0 && r.limit_type == t0 && r.is_active : Bool) = true
      · rw [if_pos hc]
        have hnew : ¬ (((({ r with is_active := false } : LimitRecord).user_id == u &&
            ({ r with is_active := false } : LimitRecord).limit_type == t &&
            ({ r with is_active := false } : LimitRecord).is_active) : Bool) = true) := by
          simp
        rw [if_neg hnew]
        by_cases hro : (r.user_id == u && r.limit_type == t && r.is_active : Bool) = true
        · rw [if_pos hro, List.length_cons]
          exact le_trans ih (Nat.le_succ _)
        · rw [if_neg hro]
          exact ih
      · rw [if_neg hc]
        by_cases hro : (r.user_id == u && r.limit_type == t && r.is_active : Bool) = true
        · rw [if_pos hro, if_pos hro, List.length_cons, List.length_cons]
          exact Nat.succ_le_succ ih
        · rw [if_neg hro, if_neg hro]
          exact ih

theorem activeCount_add_limit_le (db : List LimitRecord) (u0 : ℕ) (ra : ℤ) (t0 : String)
    (u : ℕ) (t : String) (h : activeCount db u t ≤ 1) :
    activeCount (add_limit db u0 ra t0) u t ≤ 1 := by
  unfold activeCount at h ⊢
  unfold add_limit
  rw [List.filter_append, List.length_append]
  by_cases hut : u0 = u ∧ t0 = t
  · obtain ⟨hu, ht⟩ := hut
    subst hu; subst ht
    rw [filter_deactivated_nil]
    simp
  · have htail : (List.filter (fun r => r.user_id == u && r.limit_type == t && r.is_active)
        [(⟨u0, t0, ra, true⟩ : LimitRecord)]).length = 0 := by
      rw [List.filter_cons]
      have hcond : ¬ (((u0 == u && t0 == t && true) : Bool) = true) := by
        rcases not_and_or.mp hut with hne | hne
        · simp [beq_eq_false_iff_ne.mpr hne]
        · simp [beq_eq_false_iff_ne.mpr hne]
      rw [if_neg hcond]
      rfl
    rw [htail]
    have := filter_deactivate_length_le u0 t0 u t db
    omega

theorem applyLimits_activeCount (ops : List (ℕ × ℤ × String)) (u : ℕ) (t : String) :
    activeCount (applyLimits ops) u t ≤ 1 := by
  suffices h : ∀ (ops : List (ℕ × ℤ × String)) (db : List LimitRecord),
      (∀ u' t', activeCount db u' t' ≤ 1) →
      (∀ u' t', activeCount (ops.foldl (fun db op => add_limit db op.1 op.2.1 op.2.2) db) u' t' ≤ 1) by
    exact h ops [] (fun u' t' => by simp [activeCount]) u t
  intro ops
  induction ops with
  | nil => intro db h u' t'; exact h u' t'
  | cons op rest ih =>
      intro db h u' t'
      exact ih (add_limit db op.1 op.2.1 op.2.2)
        (fun u'' t'' => activeCount_add_limit_le db op.1 op.2.1 op.2.2 u'' t'' (h u'' t'')) u' t'

theorem get_active_limit_some (db : List LimitRecord) (now : ℤ) (u : ℕ) (t : String)
    (r : LimitRecord) (h : get_active_limit db now u t = some r) :
    r ∈ db ∧ r.user_id = u ∧ r.limit_type = t ∧ r.is_active = true ∧ now < r.retry_after := by
  have hmem := List.mem_of_find?_eq_some h
  have hmatch := List.find?_some h
  unfold limitMatches at hmatch
  simp only [Bool.and_eq_true, beq_iff_eq, decide_eq_true_eq] at hmatch
  exact ⟨hmem, hmatch.1.1.1, hmatch.1.1.2, hmatch.1.2, hmatch.2⟩

theorem get_active_limit_none (db : List LimitRecord) (now : ℤ) (u : ℕ) (t : String) :
    get_active_limit db now u t = none ↔
      ∀ r ∈ db, ¬ (r.user_id = u ∧ r.limit_type = t ∧ r.is_active = true ∧ now < r.retry_after) := by
  unfold get_active_limit
  rw [List.find?_eq_none]
  constructor
  · intro h r hr hc
    apply h r hr
    unfold limitMatches
    simp only [Bool.and_eq_true, beq_iff_eq, decide_eq_true_eq]
    exact ⟨⟨⟨hc.1, hc.2.1⟩, hc.2.2.1⟩, hc.2.2.2⟩
  · intro h r hr hc
    unfold limitMatches at hc
    simp only [Bool.and_eq_true, beq_iff_eq, decide_eq_true_eq] at hc
    exact h r hr ⟨hc.1.1.1, hc.1.1.2, hc.1.2, hc.2⟩

/-- Claim C2: after any sequence of `add_limit` operations at most one
rate-limit record is active per (user, scope); `get_active_limit` returns a
record exactly when one is active with `retry_after` in the future; and while
one is returned, `generate_and_send_reply` aborts early with a structured
rate-limited result, leaving state and call trace untouched. -/
theorem rate_limit_governor_spec :
    (∀ (ops : List (ℕ × ℤ × String)) (u : ℕ) (t : String),
        activeCount (applyLimits ops) u t ≤ 1) ∧
    (∀ (db : List LimitRecord) (now : ℤ) (u : ℕ) (t : String) (r : LimitRecord),
        get_active_limit db now u t = some r →
        r ∈ db ∧ r.user_id = u ∧ r.limit_type = t ∧ r.is_active = true ∧ now < r.retry_after) ∧
    (∀ (db : List LimitRecord) (now : ℤ) (u : ℕ) (t : String),
        get_active_limit db now u t = none ↔
          ∀ r ∈ db, ¬ (r.user_id = u ∧ r.limit_type = t ∧ r.is_active = true ∧
            now < r.retry_after)) ∧
    (∀ (env : Env) (st : PipelineState) (tr : Trace) (thread : ThreadData)
        (classification : String) (r : LimitRecord),
        get_active_limit st.limits env.now env.userId "send_email" = some r →
        (generate_and_send_reply env st tr thread classification).reply_sent = false ∧
        (generate_and_send_reply env st tr thread classification).resp =
          .rateLimited (.iso r.retry_after) ∧
        (generate_and_send_reply env st tr thread classification).st = st ∧
        (generate_and_send_reply env st tr thread classification).tr = tr) := by
  refine ⟨applyLimits_activeCount, get_active_limit_some, get_active_limit_none, ?_⟩
  intro env st tr thread classification r h
  simp [generate_and_send_reply, h]

/-- Witness for claim C2: the gate conjunct at a concrete active limit. -/
theorem rate_limit_governor_spec_witness :
    get_active_limit wStLim.limits wEnv.now wEnv.userId "send_email" = some wLim ∧
    ((generate_and_send_reply wEnv wStLim trace0 wThread "General").reply_sent = false ∧
      (generate_and_send_reply wEnv wStLim trace0 wThread "General").resp =
        .rateLimited (.iso wLim.retry_after) ∧
      (generate_and_send_reply wEnv wStLim trace0 wThread "General").st = wStLim ∧
      (generate_and_send_reply wEnv wStLim trace0 wThread "General").tr = trace0) :=
  ⟨by decide,
   rate_limit_governor_spec.2.2.2 wEnv wStLim trace0 wThread "General" wLim (by decide)⟩

theorem generate_and_send_reply_processed (env : Env) (st : PipelineState) (tr : Trace)
    (thread : ThreadData) (classification : String) :
    (generate_and_send_reply env st tr thread classification).st.processed = st.processed := by
  unfold generate_and_send_reply
  repeat' split
  all_goals rfl

theorem generate_and_send_reply_store (env : Env) (st : PipelineState) (tr : Trace)
    (thread : ThreadData) (classification : String) :
    (generate_and_send_reply env st tr thread classification).st.store = st.store := by
  unfold generate_and_send_reply
  repeat' split
  all_goals rfl

theorem generate_and_send_reply_classify (env : Env) (st : PipelineState) (tr : Trace)
    (thread : ThreadData) (classification : String) :
    (generate_and_send_reply env st tr thread classification).tr.classifyCalls =
      tr.classifyCalls := by
  unfold generate_and_send_reply
  repeat' split
  all_goals rfl

theorem afterReply_isSent (env : Env) (e tid : String) (g : GenResult) :
    isSentOut (afterReply env e tid g).out = g.reply_sent := by
  unfold afterReply
  cases hrs : g.reply_sent
  · simp only [Bool.false_eq_true, if_neg (by simp : ¬ (False : Prop))]
    cases g.resp <;> simp [isSentOut]
  · simp [isSentOut]

theorem afterReply_processed (env : Env) (e tid : String) (g : GenResult) :
    (afterReply env e tid g).st.processed =
      (if g.reply_sent then setAdd g.st.processed e else g.st.processed) := by
  unfold afterReply
  cases hrs : g.reply_sent
  · simp only [Bool.false_eq_true, if_neg (by simp : ¬ (False : Prop))]
    cases g.resp <;> rfl
  · rfl

theorem mem_setAdd_of_mem {s : List String} {x y : String} (h : x ∈ s) : x ∈ setAdd s y := by
  unfold setAdd
  split
  · exact h
  · exact List.mem_append_left _ h

theorem process_single_email_processed_cases (env : Env) (st : PipelineState) (e : String) :
    ((process_single_email env st e).st.processed = st.processed ∧
      isSentOut (process_single_email env st e).out = false) ∨
    ((process_single_email env st e).st.processed = setAdd st.processed e ∧
      isSentOut (process_single_email env st e).out = true) := by
  unfold process_single_email
  repeat' split
  all_goals try (left; exact ⟨rfl, rfl⟩)
  all_goals
    rw [afterReply_processed, afterReply_isSent, generate_and_send_reply_processed]
  all_goals
    rcases hrs : (generate_and_send_reply env _ _ _ _).reply_sent <;>
      simp [hrs]

theorem mem_setAdd_self (s : List String) (x : String) : x ∈ setAdd s x := by
  unfold setAdd
  split
  · next h => exact List.mem_of_elem_eq_true h
  · exact List.mem_append_right _ (List.mem_singleton.mpr rfl)

theorem isSentOut_dict_of_ne (b : Bool) (m : ProcMsg) (h : ∀ tid, m ≠ ProcMsg.autoReplySent tid) :
    isSentOut (ProcOutput.dict b m) = false := by
  cases m
  case autoReplySent tid => exact absurd rfl (h tid)
  all_goals rfl

/-- Claim C10: an email id enters `processed_message_ids` only when a reply
was actually sent: if the cache changed, the call returned the sent dict and
the change is exactly the added id; any rate-limited, failed, skipped,
errored, or tuple outcome leaves the cache unchanged. -/
theorem process_single_email_cache_only_on_send :
    ∀ (env : Env) (st : PipelineState) (e : String),
      ((process_single_email env st e).st.processed ≠ st.processed →
        isSentOut (process_single_email env st e).out = true ∧
        (process_single_email env st e).st.processed = setAdd st.processed e) ∧
      (isSentOut (process_single_email env st e).out = false →
        (process_single_email env st e).st.processed = st.processed) ∧
      (∀ (b : Bool) (m : ProcMsg), (process_single_email env st e).out = .dict b m →
        (∀ tid, m ≠ ProcMsg.autoReplySent tid) →
        (process_single_email env st e).st.processed = st.processed) ∧
      (∀ (b : Bool) (resp : GenResp), (process_single_email env st e).out = .pair b resp →
        (process_single_email env st e).st.processed = st.processed) := by
  intro env st e
  rcases process_single_email_processed_cases env st e with ⟨hp, hs⟩ | ⟨hp, hs⟩
  · refine ⟨fun hne => absurd hp hne, fun _ => hp, fun b m _ _ => hp, fun b resp _ => hp⟩
  · refine ⟨fun _ => ⟨hs, hp⟩, ?_, ?_, ?_⟩
    · intro hf
      rw [hs] at hf
      exact absurd hf (by simp)
    · intro b m hout hne
      rw [hout, isSentOut_dict_of_ne b m hne] at hs
      exact absurd hs (by simp)
    · intro b resp hout
      rw [hout] at hs
      simp [isSentOut] at hs

/-- Witness for claim C10: a run whose provider send is rate limited (with no
extractable timestamp) ends non-sent and leaves the cache unchanged. -/
theorem process_single_email_cache_only_on_send_witness :
    isSentOut (process_single_email
      { wEnv with gmailSend := .error "HttpError 429 user rate limit exceeded" }
      wSt "m1").out = false ∧
    (process_single_email
      { wEnv with gmailSend := .error "HttpError 429 user rate limit exceeded" }
      wSt "m1").st.processed = wSt.processed :=
  ⟨by decide,
   (process_single_email_cache_only_on_send
     { wEnv with gmailSend := .error "HttpError 429 user rate limit exceeded" }
     wSt "m1").2.1 (by decide)⟩

theorem process_single_email_no_work_of_processed (env : Env) (st : PipelineState) (e : String)
    (h : e ∈ st.processed) :
    (process_single_email env st e).tr.classifyCalls = 0 ∧
    (process_single_email env st e).tr.composeCalls = 0 ∧
    (process_single_email env st e).tr.gmailSendCalls = 0 ∧
    isSentOut (process_single_email env st e).out = false := by
  unfold process_single_email
  repeat' split
  all_goals simp_all [trace0, monitorCheck, isSentOut]

theorem process_single_email_of_processed (env : Env) (st : PipelineState) (e : String)
    (h : e ∈ st.processed) (tidOpt : Option String) (tid : String) (thread : ThreadData)
    (latest : Msg)
    (hgate : get_active_limit st.limits env.now env.userId "send_email" = none)
    (hmsg : env.getMessage = .ok tidOpt) (htid : truthyStr tidOpt = some tid)
    (hth : env.getThread = .ok thread) (hlast : thread.messages.getLast? = some latest) :
    (process_single_email env st e).out = .dict true .emailAlreadyProcessed ∧
    (process_single_email env st e).st = st ∧
    (process_single_email env st e).tr = trace0 := by
  have hc : st.processed.contains e = true := List.elem_eq_true_of_mem h
  unfold process_single_email
  simp only [hgate, hmsg, htid, hth, hlast, hc]
  exact ⟨rfl, rfl, rfl⟩

theorem process_single_email_mono (env : Env) (st : PipelineState) (e x : String)
    (h : x ∈ st.processed) : x ∈ (process_single_email env st e).st.processed := by
  rcases process_single_email_processed_cases env st e with ⟨hp, _⟩ | ⟨hp, _⟩
  · rw [hp]; exact h
  · rw [hp]; exact mem_setAdd_of_mem h

theorem runCalls_append (a b : List (Env × String)) (st : PipelineState) :
    runCalls (a ++ b) st = runCalls b (runCalls a st) :=
  List.foldl_append _ _ a b

theorem runCalls_mono (calls : List (Env × String)) (st : PipelineState) (x : String)
    (h : x ∈ st.processed) : x ∈ (runCalls calls st).processed := by
  induction calls generalizing st with
  | nil => exact h
  | cons c rest ih => exact ih _ (process_single_email_mono c.1 st c.2 x h)

theorem runCalls_take_succ (calls : List (Env × String)) (st : PipelineState) (i : ℕ)
    (hi : i < calls.length) :
    runCalls (calls.take (i + 1)) st =
      (process_single_email (calls.get ⟨i, hi⟩).1 (runCalls (calls.take i) st)
        (calls.get ⟨i, hi⟩).2).st := by
  rw [List.take_succ, List.getElem?_eq_getElem hi]
  rw [runCalls_append]
  rfl

/-- Claim C1: once call `i` of a sequence of per-message invocations sends a
reply for a message id, every later call `j` with the same id does no
classification, no composition, and no provider send (so at most one reply is
ever sent for the id), and whenever that later call passes the rate-limit
gate and its message/thread fetches succeed it returns the
"Email already processed" dict with the state unchanged. -/
theorem process_single_email_dedup (calls : List (Env × String)) (st0 : PipelineState)
    (i j : ℕ) (hi : i < calls.length) (hj : j < calls.length) (hij : i < j)
    (hsent : isSentOut (process_single_email (calls.get ⟨i, hi⟩).1
        (runCalls (calls.take i) st0) (calls.get ⟨i, hi⟩).2).out = true)
    (hsame : (calls.get ⟨j, hj⟩).2 = (calls.get ⟨i, hi⟩).2) :
    ((process_single_email (calls.get ⟨j, hj⟩).1 (runCalls (calls.take j) st0)
        (calls.get ⟨j, hj⟩).2).tr.classifyCalls = 0 ∧
      (process_single_email (calls.get ⟨j, hj⟩).1 (runCalls (calls.take j) st0)
        (calls.get ⟨j, hj⟩).2).tr.composeCalls = 0 ∧
      (process_single_email (calls.get ⟨j, hj⟩).1 (runCalls (calls.take j) st0)
        (calls.get ⟨j, hj⟩).2).tr.gmailSendCalls = 0 ∧
      isSentOut (process_single_email (calls.get ⟨j, hj⟩).1 (runCalls (calls.take j) st0)
        (calls.get ⟨j, hj⟩).2).out = false) ∧
    (∀ (tidOpt : Option String) (tid : String) (thread : ThreadData) (latest : Msg),
      get_active_limit (runCalls (calls.take j) st0).limits
          (calls.get ⟨j, hj⟩).1.now (calls.get ⟨j, hj⟩).1.userId "send_email" = none →
      (calls.get ⟨j, hj⟩).1.getMessage = .ok tidOpt →
      truthyStr tidOpt = some tid →
      (calls.get ⟨j, hj⟩).1.getThread = .ok thread →
      thread.messages.getLast? = some latest →
      (process_single_email (calls.get ⟨j, hj⟩).1 (runCalls (calls.take j) st0)
        (calls.get ⟨j, hj⟩).2).out = .dict true .emailAlreadyProcessed ∧
      (process_single_email (calls.get ⟨j, hj⟩).1 (runCalls (calls.take j) st0)
        (calls.get ⟨j, hj⟩).2).st = runCalls (calls.take j) st0) := by
  set e := (calls.get ⟨i, hi⟩).2 with he
  have hmark : e ∈ (runCalls (calls.take (i + 1)) st0).processed := by
    rw [runCalls_take_succ calls st0 i hi]
    rcases process_single_email_processed_cases (calls.get ⟨i, hi⟩).1
        (runCalls (calls.take i) st0) e with ⟨_, hs⟩ | ⟨hp, _⟩
    · rw [hs] at hsent
      exact absurd hsent (by simp)
    · rw [hp]
      exact mem_setAdd_self _ e
  have hdecomp : calls.take j = calls.take (i + 1) ++ (calls.drop (i + 1)).take (j - (i + 1)) := by
    rw [← List.take_add]
    congr 1
    omega
  have hmem : e ∈ (runCalls (calls.take j) st0).processed := by
    rw [hdecomp, runCalls_append]
    exact runCalls_mono _ _ e hmark
  rw [hsame]
  refine ⟨process_single_email_no_work_of_processed _ _ e hmem, ?_⟩
  intro tidOpt tid thread latest hgate hmsg htid hth hlast
  have := process_single_email_of_processed (calls.get ⟨j, hj⟩).1
    (runCalls (calls.take j) st0) e hmem tidOpt tid thread latest hgate hmsg htid hth hlast
  exact ⟨this.1, this.2.1⟩

/-- Witness for claim C1: a two-call sequence delivering the same message id
twice; the first call sends, the second returns "Email already processed". -/
theorem process_single_email_dedup_witness :
    isSentOut (process_single_email ([(wEnv, "m1"), (wEnv, "m1")].get
        ⟨0, by decide⟩).1
      (runCalls ([(wEnv, "m1"), (wEnv, "m1")].take 0) wSt)
      ([(wEnv, "m1"), (wEnv, "m1")].get ⟨0, by decide⟩).2).out = true ∧
    (process_single_email ([(wEnv, "m1"), (wEnv, "m1")].get ⟨1, by decide⟩).1
      (runCalls ([(wEnv, "m1"), (wEnv, "m1")].take 1) wSt)
      ([(wEnv, "m1"), (wEnv, "m1")].get ⟨1, by decide⟩).2).out =
        .dict true .emailAlreadyProcessed ∧
    (process_single_email ([(wEnv, "m1"), (wEnv, "m1")].get ⟨1, by decide⟩).1
      (runCalls ([(wEnv, "m1"), (wEnv, "m1")].take 1) wSt)
      ([(wEnv, "m1"), (wEnv, "m1")].get ⟨1, by decide⟩).2).tr.gmailSendCalls = 0 := by
  have h := process_single_email_dedup [(wEnv, "m1"), (wEnv, "m1")] wSt 0 1
    (by decide) (by decide) (by decide) (by decide) (by decide)
  refine ⟨by decide, ?_, h.1.2.2.1⟩
  exact (h.2 (some "t1") "t1" wThread ⟨"alice@x.com", [], 9000, "sn", some "b"⟩
    (by decide) (by rfl) (by rfl) (by rfl) (by rfl)).1

/-- Claim C8: on a first poll cycle (no truthy stored cursor, rate-limit gate
open) the cursor is initialized to the provider's current position and the
cycle returns without invoking history processing; on later cycles a failed
processing result leaves the cursor unchanged, and the cursor moves only when
processing reports success and its result carries the latest-history-id key,
in which case it is set to that value. -/
theorem check_emails_for_user_cursor :
    ∀ (limits : List LimitRecord) (now : ℤ) (userId : ℕ)
      (cursor profileHistoryId : Option String) (ph : PHResult),
      get_active_limit limits now userId "send_email" = none →
      ((truthyStr cursor = none →
        check_emails_for_user limits now userId cursor profileHistoryId ph =
          (.initialized, profileHistoryId, false)) ∧
      (∀ h, truthyStr cursor = some h → ph.success = false →
        check_emails_for_user limits now userId cursor profileHistoryId ph =
          (.processed ph, some h, true)) ∧
      (∀ h, truthyStr cursor = some h →
        (check_emails_for_user limits now userId cursor profileHistoryId ph).2.1 ≠ some h →
        ph.success = true ∧ ph.latest_present = true ∧
        (check_emails_for_user limits now userId cursor profileHistoryId ph).2.1 = ph.latest) ∧
      (∀ h, truthyStr cursor = some h → ph.success = true → ph.latest_present = true →
        (check_emails_for_user limits now userId cursor profileHistoryId ph).2.1 =
          ph.latest)) := by
  intro limits now userId cursor profileHistoryId ph hgate
  refine ⟨?_, ?_, ?_, ?_⟩
  · intro hc
    unfold check_emails_for_user
    rw [hgate, hc]
  · intro h hc hf
    unfold check_emails_for_user
    rw [hgate, hc]
    simp [hf]
  · intro h hc hne
    unfold check_emails_for_user at hne ⊢
    rw [hgate, hc] at hne ⊢
    by_cases hs : ph.success = true
    · by_cases hl : ph.latest_present = true
      · refine ⟨hs, hl, ?_⟩
        simp [hs, hl]
      · exact absurd (by simp [hs, Bool.eq_false_iff.mpr hl]) hne
    · exact absurd (by simp [Bool.eq_false_iff.mpr hs]) hne
  · intro h hc hs hl
    unfold check_emails_for_user
    rw [hgate, hc]
    simp [hs, hl]

/-- Witness for claim C8: a first cycle initializes the cursor to the
profile's history id and does not invoke processing. -/
theorem check_emails_for_user_cursor_witness :
    get_active_limit [] 0 1 "send_email" = none ∧
    truthyStr none = none ∧
    check_emails_for_user [] 0 1 none (some "h0") ⟨true, true, some "h1"⟩ =
      (.initialized, some "h0", false) :=
  ⟨by decide, rfl,
   (check_emails_for_user_cursor [] 0 1 none (some "h0") ⟨true, true, some "h1"⟩
     (by decide)).1 rfl⟩

/-- Counterexample for claim C4: a send fails with a provider rate-limit
error (contains "429" and "rate limit exceeded") from which no timestamp is
extractable; the call returns a rate-limited response carrying the
"unknown date" marker, yet the rate-limit table stays empty — no record is
persisted — and the gate for the next send attempt is open, so sends are not
paused. -/
theorem rate_limit_unknown_not_persisted_cx :
    containsSubstr "rate limit exceeded"
      (strLower "HttpError 429 user rate limit exceeded") = true ∧
    searchUntil "HttpError 429 user rate limit exceeded" = none ∧
    searchRetryAfter (httpExcStr 500
      ("Failed to send email: " ++ "HttpError 429 user rate limit exceeded")) = none ∧
    (generate_and_send_reply wEnvRL wSt trace0 wThread "General").reply_sent = false ∧
    (generate_and_send_reply wEnvRL wSt trace0 wThread "General").resp =
      .rateLimited .unknownDate ∧
    (generate_and_send_reply wEnvRL wSt trace0 wThread "General").st.limits = [] ∧
    get_active_limit
      (generate_and_send_reply wEnvRL wSt trace0 wThread "General").st.limits
      wEnvRL.now wEnvRL.userId "send_email" = none := by
  decide

/-- Claim C4 as amended: when a send attempt fails with a provider
rate-limit error from which no timestamp is extractable, no rate-limit
record is persisted at all; the attempt returns a structured rate-limited
result whose retry_after field is the literal "unknown date" marker, and the
rate-limit table is left unchanged, so subsequent sends are not paused
(fail-open, not fail-safe). -/
theorem rate_limit_unknown_not_persisted (env : Env) (st : PipelineState) (tr : Trace)
    (thread : ThreadData) (classification : String) (latest : Msg) (rc g : String)
    (hgate : get_active_limit st.limits env.now env.userId "send_email" = none)
    (hlast : thread.messages.getLast? = some latest)
    (hcls : ¬ strLower classification = "irrelevant")
    (hrc : truthyStr env.replyContent = some rc)
    (hsend : env.gmailSend = .error g)
    (hrl : containsSubstr "rate limit exceeded" (strLower g) = true)
    (huntil : searchUntil g = none)
    (h429 : containsSubstr "429" (httpExcStr 500 ("Failed to send email: " ++ g)) = true)
    (hrl2 : containsSubstr "rate limit exceeded"
      (strLower (httpExcStr 500 ("Failed to send email: " ++ g))) = true)
    (hretry : searchRetryAfter (httpExcStr 500 ("Failed to send email: " ++ g)) = none) :
    (generate_and_send_reply env st tr thread classification).reply_sent = false ∧
    (generate_and_send_reply env st tr thread classification).resp =
      .rateLimited .unknownDate ∧
    (generate_and_send_reply env st tr thread classification).st = st := by
  unfold generate_and_send_reply send_email
  simp only [hgate, hlast, hsend, hrl, huntil, hrc, if_neg hcls, h429, hrl2, hretry,
    Bool.true_and, Bool.and_self, eq_self_iff_true, if_true]
  exact ⟨trivial, trivial, trivial⟩

/-- Witness for the amended claim C4 at the concrete provider error. -/
theorem rate_limit_unknown_not_persisted_witness :
    (generate_and_send_reply wEnvRL wSt trace0 wThread "General").reply_sent = false ∧
    (generate_and_send_reply wEnvRL wSt trace0 wThread "General").resp =
      .rateLimited .unknownDate ∧
    (generate_and_send_reply wEnvRL wSt trace0 wThread "General").st = wSt :=
  rate_limit_unknown_not_persisted wEnvRL wSt trace0 wThread "General"
    ⟨"alice@x.com", [], 9000, "sn", some "b"⟩ "hello"
    "HttpError 429 user rate limit exceeded"
    (by decide) (by rfl) (by decide) (by rfl) (by rfl)
    (by decide) (by decide) (by decide) (by decide) (by decide)

/-- Counterexample for claim C5: a message whose thread is classified
"Irrelevant" runs through `process_single_email` against an empty vector
index; the upsert routine is invoked once, yet the index is still empty
afterwards — the thread is not stored ("skipped entirely"), so it is not
upserted to the vector index.  Composition and sending are indeed never
invoked and the skipped outcome is returned (as the `(False, dict)` pair the
irrelevant branch produces). -/
theorem irrelevant_not_stored_cx :
    (process_single_email wEnvIrr wSt "m1").tr.upsertCalls = 1 ∧
    (process_single_email wEnvIrr wSt "m1").st.store = [] ∧
    upsert_thread [] 1
      { wThread with embedding := some 7, category := some "Irrelevant" } = (true, []) ∧
    (process_single_email wEnvIrr wSt "m1").tr.composeCalls = 0 ∧
    (process_single_email wEnvIrr wSt "m1").tr.gmailSendCalls = 0 ∧
    (process_single_email wEnvIrr wSt "m1").out = .pair false .skippedIrrelevant := by
  decide

theorem upsert_thread_irrelevant (store : List (String × VectorMeta)) (user_id : ℕ)
    (td : ThreadData) (h : strLower (td.category.getD "") = "irrelevant") :
    upsert_thread store user_id td = (true, store) := by
  unfold upsert_thread
  rw [if_pos h]

/-- Claim C5 as amended: for a thread classified "irrelevant", the pipeline
invokes the upsert routine, but `upsert_thread` skips storage for the
irrelevant sentinel and reports success without writing; reply composition
is never invoked and no send occurs; `generate_and_send_reply` returns the
structured skipped response, and `process_single_email`'s own irrelevant
branch returns the `(False, skipped)` pair with the state unchanged. -/
theorem irrelevant_skips_reply_and_storage :
    (∀ (store : List (String × VectorMeta)) (user_id : ℕ) (td : ThreadData),
      strLower (td.category.getD "") = "irrelevant" →
      upsert_thread store user_id td = (true, store)) ∧
    (∀ (env : Env) (st : PipelineState) (tr : Trace) (thread : ThreadData)
        (classification : String) (latest : Msg),
      get_active_limit st.limits env.now env.userId "send_email" = none →
      thread.messages.getLast? = some latest →
      strLower classification = "irrelevant" →
      (generate_and_send_reply env st tr thread classification).reply_sent = false ∧
      (generate_and_send_reply env st tr thread classification).resp = .skippedIrrelevant ∧
      (generate_and_send_reply env st tr thread classification).st = st ∧
      (generate_and_send_reply env st tr thread classification).tr = tr) ∧
    (∀ (env : Env) (st : PipelineState) (e : String) (tidOpt : Option String)
        (tid : String) (thread : ThreadData) (latest : Msg) (classification : String),
      get_active_limit st.limits env.now env.userId "send_email" = none →
      env.getMessage = .ok tidOpt → truthyStr tidOpt = some tid →
      env.getThread = .ok thread → thread.messages.getLast? = some latest →
      e ∉ st.processed →
      ¬ (latest.date ≤ env.now - 3600 ∨ user_already_replied thread.messages env.userEmail = true) →
      env.classify = some classification →
      strLower classification = "irrelevant" →
      (process_single_email env st e).out = .pair false .skippedIrrelevant ∧
      (process_single_email env st e).st = st ∧
      (process_single_email env st e).tr.composeCalls = 0 ∧
      (process_single_email env st e).tr.gmailSendCalls = 0 ∧
      (process_single_email env st e).tr.monitorChecks = 0) := by
  refine ⟨upsert_thread_irrelevant, ?_, ?_⟩
  · intro env st tr thread classification latest hgate hlast hirr
    unfold generate_and_send_reply
    simp only [hgate, hlast, if_pos hirr]
    refine ⟨?_, ?_, ?_, ?_⟩ <;> first | rfl | trivial
  · intro env st e tidOpt tid thread latest classification hgate hmsg htid hth hlast
      hproc hfresh hcls hirr
    have hc : st.processed.contains e = false :=
      Bool.eq_false_iff.mpr (fun hx => hproc (List.mem_of_elem_eq_true hx))
    have hskip : (decide (latest.date ≤ env.now - 3600) ||
        user_already_replied thread.messages env.userEmail) = false := by
      rcases not_or.mp hfresh with ⟨h1, h2⟩
      rw [decide_eq_false h1, Bool.false_or]
      exact Bool.eq_false_iff.mpr h2
    have hup := upsert_thread_irrelevant st.store env.userId
      { thread with embedding := some env.embedVal, category := some classification }
      (by simpa using hirr)
    unfold process_single_email
    simp only [hgate, hmsg, htid, hth, hlast, hc, hskip, hcls, if_pos hirr,
      Bool.false_eq_true, if_false]
    by_cases htc : thread.text_content.getD "" = ""
    · simp only [if_pos htc]
      refine ⟨?_, ?_, ?_, ?_, ?_⟩ <;> first | rfl | trivial
    · simp only [if_neg htc, hup]
      refine ⟨?_, ?_, ?_, ?_, ?_⟩ <;> first | rfl | trivial

/-- Witness for the amended claim C5 at the concrete irrelevant run. -/
theorem irrelevant_skips_reply_and_storage_witness :
    (process_single_email wEnvIrr wSt "m1").out = .pair false .skippedIrrelevant ∧
    (process_single_email wEnvIrr wSt "m1").st = wSt ∧
    (process_single_email wEnvIrr wSt "m1").tr.composeCalls = 0 ∧
    (process_single_email wEnvIrr wSt "m1").tr.gmailSendCalls = 0 ∧
    (process_single_email wEnvIrr wSt "m1").tr.monitorChecks = 0 :=
  irrelevant_skips_reply_and_storage.2.2 wEnvIrr wSt "m1" (some "t1") "t1" wThread
    ⟨"alice@x.com", [], 9000, "sn", some "b"⟩ "Irrelevant"
    (by decide) (by rfl) (by rfl) (by rfl) (by rfl)
    (by decide) (by decide) (by rfl) (by decide)

/-- Counterexample for claim C6: with a failing classifier,
`process_single_email` does not fall back or continue — the missing
`"classification"` key raises, the outer handler returns a failure result,
and neither composition nor sending (nor any fallback classification) is
attempted. -/
theorem classification_failure_aborts_cx :
    (process_single_email wEnvNoCls wSt "m1").out =
      .dict false (.errorProcessing .keyErrorClassification) ∧
    (process_single_email wEnvNoCls wSt "m1").tr.composeCalls = 0 ∧
    (process_single_email wEnvNoCls wSt "m1").tr.gmailSendCalls = 0 ∧
    (process_single_email wEnvNoCls wSt "m1").tr.upsertCalls = 0 ∧
    (process_single_email wEnvNoCls wSt "m1").tr.classifyCalls = 1 := by
  decide

/-- Claim C6 as amended: when classification fails (the classifier result
carries no category), `process_single_email` aborts for that message — the
key subscript raises, the outer handler runs the monitoring check and
returns the error dict — with no fallback category, no composition, no send,
and no upsert; the rate-limit table and the dedup cache are unchanged. -/
theorem classification_failure_aborts (env : Env) (st : PipelineState) (e : String)
    (tidOpt : Option String) (tid : String) (thread : ThreadData) (latest : Msg)
    (hgate : get_active_limit st.limits env.now env.userId "send_email" = none)
    (hmsg : env.getMessage = .ok tidOpt) (htid : truthyStr tidOpt = some tid)
    (hth : env.getThread = .ok thread) (hlast : thread.messages.getLast? = some latest)
    (hproc : e ∉ st.processed)
    (hfresh : ¬ (latest.date ≤ env.now - 3600 ∨
      user_already_replied thread.messages env.userEmail = true))
    (hcls : env.classify = none) :
    (process_single_email env st e).out =
      .dict false (.errorProcessing .keyErrorClassification) ∧
    (process_single_email env st e).tr.composeCalls = 0 ∧
    (process_single_email env st e).tr.gmailSendCalls = 0 ∧
    (process_single_email env st e).tr.upsertCalls = 0 ∧
    (process_single_email env st e).tr.classifyCalls = 1 ∧
    (process_single_email env st e).tr.monitorChecks = 1 ∧
    (process_single_email env st e).st.limits = st.limits ∧
    (process_single_email env st e).st.processed = st.processed := by
  have hc : st.processed.contains e = false :=
    Bool.eq_false_iff.mpr (fun hx => hproc (List.mem_of_elem_eq_true hx))
  have hskip : (decide (latest.date ≤ env.now - 3600) ||
      user_already_replied thread.messages env.userEmail) = false := by
    rcases not_or.mp hfresh with ⟨h1, h2⟩
    rw [decide_eq_false h1, Bool.false_or]
    exact Bool.eq_false_iff.mpr h2
  unfold process_single_email
  simp only [hgate, hmsg, htid, hth, hlast, hc, hskip, hcls, Bool.false_eq_true, if_false]
  refine ⟨?_, ?_, ?_, ?_, ?_, ?_, ?_, ?_⟩ <;> first | rfl | trivial

/-- Witness for the amended claim C6 at the concrete failing classifier. -/
theorem classification_failure_aborts_witness :
    (process_single_email wEnvNoCls wSt "m1").out =
      .dict false (.errorProcessing .keyErrorClassification) ∧
    (process_single_email wEnvNoCls wSt "m1").tr.composeCalls = 0 ∧
    (process_single_email wEnvNoCls wSt "m1").tr.gmailSendCalls = 0 ∧
    (process_single_email wEnvNoCls wSt "m1").tr.upsertCalls = 0 ∧
    (process_single_email wEnvNoCls wSt "m1").tr.classifyCalls = 1 ∧
    (process_single_email wEnvNoCls wSt "m1").tr.monitorChecks = 1 ∧
    (process_single_email wEnvNoCls wSt "m1").st.limits = wSt.limits ∧
    (process_single_email wEnvNoCls wSt "m1").st.processed = wSt.processed :=
  classification_failure_aborts wEnvNoCls wSt "m1" (some "t1") "t1" wThread
    ⟨"alice@x.com", [], 9000, "sn", some "b"⟩
    (by decide) (by rfl) (by rfl) (by rfl) (by rfl) (by decide) (by decide) (by rfl)

/-- Counterexample for claim C7: a message skipped because it was already
processed returns without any thread-monitoring check (monitorChecks = 0),
so not every skipped message feeds the Thread Monitor step. -/
theorem skipped_feeds_monitor_cx :
    (process_single_email wEnv ⟨[], ["m1"], [], []⟩ "m1").out =
      .dict true .emailAlreadyProcessed ∧
    (process_single_email wEnv ⟨[], ["m1"], [], []⟩ "m1").tr.monitorChecks = 0 := by
  decide

/-- Claim C7 as amended: a message skipped because it is too old or its
thread was already replied to does run the thread-monitoring check before
returning, but a message skipped because it was already processed returns
immediately with no monitoring check. -/
theorem skipped_feeds_monitor :
    (∀ (env : Env) (st : PipelineState) (e : String) (tidOpt : Option String)
        (tid : String) (thread : ThreadData) (latest : Msg),
      get_active_limit st.limits env.now env.userId "send_email" = none →
      env.getMessage = .ok tidOpt → truthyStr tidOpt = some tid →
      env.getThread = .ok thread → thread.messages.getLast? = some latest →
      e ∉ st.processed →
      (latest.date ≤ env.now - 3600 ∨
        user_already_replied thread.messages env.userEmail = true) →
      (process_single_email env st e).out = .dict true .emailSkipped ∧
      (process_single_email env st e).tr.monitorChecks = 1) ∧
    (∀ (env : Env) (st : PipelineState) (e : String) (tidOpt : Option String)
        (tid : String) (thread : ThreadData) (latest : Msg),
      get_active_limit st.limits env.now env.userId "send_email" = none →
      env.getMessage = .ok tidOpt → truthyStr tidOpt = some tid →
      env.getThread = .ok thread → thread.messages.getLast? = some latest →
      e ∈ st.processed →
      (process_single_email env st e).out = .dict true .emailAlreadyProcessed ∧
      (process_single_email env st e).tr.monitorChecks = 0) := by
  constructor
  · intro env st e tidOpt tid thread latest hgate hmsg htid hth hlast hproc hold
    have hc : st.processed.contains e = false :=
      Bool.eq_false_iff.mpr (fun hx => hproc (List.mem_of_elem_eq_true hx))
    have hskip : (decide (latest.date ≤ env.now - 3600) ||
        user_already_replied thread.messages env.userEmail) = true := by
      rcases hold with h1 | h2
      · rw [decide_eq_true h1, Bool.true_or]
      · rw [h2, Bool.or_true]
    unfold process_single_email
    simp only [hgate, hmsg, htid, hth, hlast, hc, hskip, Bool.false_eq_true, if_false,
      eq_self_iff_true, if_true]
    refine ⟨?_, ?_⟩ <;> first | rfl | trivial
  · intro env st e tidOpt tid thread latest hgate hmsg htid hth hlast hproc
    have h := process_single_email_of_processed env st e hproc tidOpt tid thread latest
      hgate hmsg htid hth hlast
    exact ⟨h.1, by rw [h.2.2]; rfl⟩

/-- Witness for the amended claim C7: a too-old message triggers exactly one
monitoring check. -/
theorem skipped_feeds_monitor_witness :
    (process_single_email { wEnv with now := 20000 } wSt "m1").out =
      .dict true .emailSkipped ∧
    (process_single_email { wEnv with now := 20000 } wSt "m1").tr.monitorChecks = 1 :=
  skipped_feeds_monitor.1 { wEnv with now := 20000 } wSt "m1" (some "t1") "t1" wThread
    ⟨"alice@x.com", [], 9000, "sn", some "b"⟩
    (by decide) (by rfl) (by rfl) (by rfl) (by rfl) (by decide) (by decide)

end EmailBot
